import Mathlib

/-!
Shallow embedding of the memory engine of `src/lib/memory-db.js`
(claude-persistent-memory).

Conventions of the embedding:
* SQLite `REAL` values (confidence, scores, similarities) are modelled as `ℚ`.
  The JS engine computes with IEEE doubles; all constants and arithmetic the
  claims mention (`0.3`, `0.9`, `+0.1`, `−0.05`, `×0.5`, `/10`, …) are treated
  exactly.
* `CURRENT_TIMESTAMP` is modelled by a logical clock `DB.now`: every public
  call advances it by one and all timestamps written during the call read the
  advanced value.  Consequently `created_at` is strictly increasing over
  inserts, which makes `ORDER BY created_at DESC` deterministic.
* The external services (LLM structurizer / merger, embedding model) and the
  two SQL engines that are genuinely external to the JS code (the FTS5 BM25
  scorer and the sqlite-vec ANN scan) are oracles: their outputs are
  parameters of the embedded operations.  Everything the JS file itself
  computes is modelled executably.
* JS `Map` / object-literal key iteration order (insertion order) is modelled
  by ordered association lists.
* JS `Array.prototype.sort` (stable) and SQL `ORDER BY` on distinct keys are
  modelled by a stable insertion sort, descending by a rational key.
-/

namespace MemoryDb

/-! ### JS character and string helpers -/

/-- Whitespace class of the JS regexp `\s` (the code points that matter here:
ASCII whitespace plus NBSP, the Unicode space block, and BOM). -/
def jsIsWsChar (c : Char) : Bool :=
  c = ' ' || c = '\t' || c = '\n' || c = '\r' ||
  c.val = 0x0b || c.val = 0x0c || c.val = 0xa0 || c.val = 0x1680 ||
  (0x2000 ≤ c.val && c.val ≤ 0x200a) ||
  c.val = 0x2028 || c.val = 0x2029 || c.val = 0x202f || c.val = 0x205f ||
  c.val = 0x3000 || c.val = 0xfeff

/-- `String.prototype.split(/\s+/)`: split on maximal whitespace runs,
keeping the (possibly empty) pieces at both ends, as JS does.  One pass with
the current piece and an inside-a-whitespace-run flag. -/
def jsSplitWsChars : List Char → String → Bool → List String
  | [], cur, _ => [cur]
  | c :: cs, cur, inWs =>
    if jsIsWsChar c then
      if inWs then jsSplitWsChars cs cur true
      else cur :: jsSplitWsChars cs "" true
    else jsSplitWsChars cs (cur.push c) false

def jsSplitWs (s : String) : List String :=
  jsSplitWsChars s.data "" false

/-- ASCII lower-casing, the fragment of `toLowerCase` the engine's data
exercises (CJK characters are unaffected by case mapping). -/
def asciiLower (s : String) : String :=
  String.mk (s.data.map Char.toLower)

/-- Does `hay` start with `pat`? -/
def leadsWith : List Char → List Char → Bool
  | _, [] => true
  | [], _ :: _ => false
  | h :: hs, p :: ps => h = p && leadsWith hs ps

/-- Substring occurrence test on character lists. -/
def hasSub (hay pat : List Char) : Bool :=
  match hay with
  | [] => leadsWith [] pat
  | _ :: hs => leadsWith hay pat || hasSub hs pat

/-- JS `String.prototype.includes` (case sensitive). -/
def strHasSub (hay pat : String) : Bool :=
  hasSub hay.data pat.data

/-- SQLite `hay LIKE '%pat%'`: substring match, case-insensitive on ASCII. -/
def likeHasSub (hay pat : String) : Bool :=
  hasSub (asciiLower hay).data (asciiLower pat).data

/-- JS `String.prototype.startsWith`. -/
def jsStartsWith (s p : String) : Bool :=
  leadsWith s.data p.data

/-- JS truthiness of a nullable string: `null` and `''` are falsy.
`jsOrStr a b` is the JS expression `a || b` for a nullable string `a`. -/
def jsOrStr (a : Option String) (b : String) : String :=
  match a with
  | none => b
  | some s => if s = "" then b else s

/-! ### Stable descending sort

`sortByDesc key` models both JS `arr.sort((a, b) => key(b) - key(a))`
(stable in modern engines) and SQL `ORDER BY key DESC` at distinct keys:
elements are processed left to right, each inserted after all earlier
elements of greater-or-equal key. -/

def insDesc (key : α → ℚ) (a : α) : List α → List α
  | [] => [a]
  | b :: bs => if key b < key a then a :: b :: bs else b :: insDesc key a bs

def sortByDesc (key : α → ℚ) (l : List α) : List α :=
  l.foldl (fun acc a => insDesc key a acc) []


/-! ### Tokenisation helpers of `memory-db.js` -/

/-- The `STOPWORDS` set of `memory-db.js` (mixed CJK / English). -/
def STOPWORDS : List String :=
  ["的", "是", "在", "有", "和", "了", "我", "你", "这", "那", "吗", "呢", "啊",
   "the", "a", "an", "is", "are", "was", "were", "what", "how", "can", "do",
   "does", "did", "will", "would", "could", "should", "to", "for", "of", "in",
   "on", "at", "by", "with", "from", "as", "it", "this", "that", "be", "have"]

/-- JS `\w` (ASCII word character). -/
def isWordChar (c : Char) : Bool := c.isAlpha || c.isDigit || c = '_'

/-- The CJK range `一-鿿` used throughout the file. -/
def isCJK (c : Char) : Bool := 0x4e00 ≤ c.val && c.val ≤ 0x9fff

/-- `text.replace(/[^\w\s一-鿿]/g, ' ')`. -/
def keepWordChars (s : String) : String :=
  String.mk (s.data.map (fun c =>
    if isWordChar c || jsIsWsChar c || isCJK c then c else ' '))

/-- Bump a word's count in an insertion-ordered frequency table (JS object
with string keys iterates in insertion order for the words seen here). -/
def bumpCount (counts : List (String × Nat)) (w : String) : List (String × Nat) :=
  if counts.any (·.1 = w) then
    counts.map (fun p => if p.1 = w then (p.1, p.2 + 1) else p)
  else counts ++ [(w, 1)]

def wordFreq (ws : List String) : List (String × Nat) := ws.foldl bumpCount []

/-- `extractKeywords` of `memory-db.js`: strip non-word characters, split on
whitespace, drop stopwords and length-≤1 tokens, keep the ten most frequent
(stable by first appearance). -/
def extractKeywords (text : String) : List String :=
  let words := (jsSplitWs (keepWordChars text)).filter
    (fun w => decide (1 < w.length) && !(STOPWORDS.contains (asciiLower w)))
  ((sortByDesc (fun p => (p.2 : ℚ)) (wordFreq words)).take 10).map (·.1)

/-- Insertion-ordered deduplication (JS `Set` construction). -/
def dedupKeepFirst (l : List String) : List String :=
  l.foldl (fun acc w => if acc.contains w then acc else acc ++ [w]) []

/-- `textSimilarity` of `memory-db.js`: word-level Jaccard similarity on
lower-cased whitespace tokens. -/
def textSimilarity (a b : String) : ℚ :=
  let wordsA := dedupKeepFirst (jsSplitWs (asciiLower a))
  let wordsB := dedupKeepFirst (jsSplitWs (asciiLower b))
  let inter := wordsA.filter (fun w => wordsB.contains w)
  let uni := dedupKeepFirst (wordsA ++ wordsB)
  (inter.length : ℚ) / (uni.length : ℚ)

/-! ### Data model

Rows of the `memories` and `clusters` tables.  `REAL` columns are `ℚ`,
`DATETIME` columns are logical-clock values (see the header), nullable
columns are `Option`. -/

abbrev Vec := List ℚ

structure Memory where
  id : Nat
  content : String
  structured_content : Option String := none
  summary : String := ""
  type : String := "context"
  tags : Option String := none
  keywords : Option String := none
  domain : String := "general"
  confidence : ℚ := 1/2
  evidence_count : Nat := 0
  cluster_id : Option Nat := none
  source : Option String := none
  trigger : Option String := none
  action : Option String := none
  created_at : Nat := 0
  updated_at : Nat := 0
  last_accessed_at : Option Nat := none
  access_count : Nat := 0
  promoted_at : Option Nat := none
  deriving DecidableEq, Repr

structure Cluster where
  id : Nat
  theme : String
  centroid_id : Option Nat := none
  centroid_vector : Option Vec := none
  member_count : Nat := 0
  avg_confidence : ℚ := 1/2
  domain : String := "general"
  status : String := "growing"
  evolved_at : Option Nat := none
  created_at : Nat := 0
  updated_at : Nat := 0
  deriving DecidableEq, Repr

/-- The persistent store: `memories`, `memories_vec` (rowid → embedding),
`clusters`, the `AUTOINCREMENT` counters and the logical clock.  The FTS
table mirrors `memories` via triggers and needs no separate state. -/
structure DB where
  memories : List Memory := []
  vecs : List (Nat × Vec) := []
  clusters : List Cluster := []
  nextMemId : Nat := 1
  nextClusterId : Nat := 1
  now : Nat := 0
  deriving DecidableEq, Repr

/-- Cluster configuration (`config.cluster` defaults of `config.default.js`). -/
def CLUSTER_SIMILARITY_THRESHOLD : ℚ := 7/10
def CLUSTER_MATURITY_COUNT : Nat := 5
def CLUSTER_MATURITY_CONFIDENCE : ℚ := 13/20

/-! ### Confidence bookkeeping (`validateMemory`, `autoBoostConfidence`,
`markMemoriesUsed`, `deleteMemory`) -/

/-- `validateMemory` of `memory-db.js`:
`confidence = MAX(0.3, MIN(0.9, confidence + delta))`, `evidence_count += 1`,
`updated_at = CURRENT_TIMESTAMP` on the matching row. -/
def validateMemory (db : DB) (memoryId : Nat) (isValid : Bool) : DB :=
  let t := db.now + 1
  let delta : ℚ := if isValid then 1/10 else -(1/20)
  { db with
    now := t
    memories := db.memories.map (fun m =>
      if m.id = memoryId then
        { m with
          confidence := max (3/10) (min (9/10) (m.confidence + delta))
          evidence_count := m.evidence_count + 1
          updated_at := t }
      else m) }

/-- `autoBoostConfidence` of `memory-db.js`:
`confidence = MIN(0.9, confidence + boost)` plus usage marking. -/
def autoBoostConfidence (db : DB) (memoryId : Nat) (boost : ℚ := 1/10) : DB :=
  let t := db.now + 1
  { db with
    now := t
    memories := db.memories.map (fun m =>
      if m.id = memoryId then
        { m with
          confidence := min (9/10) (m.confidence + boost)
          last_accessed_at := some t
          access_count := m.access_count + 1 }
      else m) }

/-- `markMemoriesUsed` of `memory-db.js`. -/
def markMemoriesUsed (db : DB) (memoryIds : List Nat) : DB :=
  if memoryIds.isEmpty then db
  else
    let t := db.now + 1
    { db with
      now := t
      memories := db.memories.map (fun m =>
        if memoryIds.contains m.id then
          { m with last_accessed_at := some t, access_count := m.access_count + 1 }
        else m) }

/-- `deleteMemory` of `memory-db.js` (the FTS trigger removes the mirrored
row; the vector entry is not touched by this function). -/
def deleteMemory (db : DB) (memoryId : Nat) : DB :=
  { db with
    now := db.now + 1
    memories := db.memories.filter (fun m => m.id ≠ memoryId) }

/-! ### LLM structuring (`escapeXml`, `formatStructuredContent`) -/

/-- `escapeXml` of `memory-db.js` (`&`, `<`, `>` only). -/
def escapeXml (s : String) : String :=
  String.mk (s.data.foldr (fun c acc =>
    if c = '&' then "&amp;".data ++ acc
    else if c = '<' then "&lt;".data ++ acc
    else if c = '>' then "&gt;".data ++ acc
    else c :: acc) [])

/-- The legacy structured object a LLM call may return
(`summary`/`scenarios`/`rules`/`triggers`/`content`).  A JS-absent field is
the empty string / empty list, which the code treats identically. -/
structure LLMStructured where
  summary : String := ""
  scenarios : List String := []
  must : List String := []
  prefer : List String := []
  must_not : List String := []
  content : Option String := none
  triggers : List String := []
  deriving DecidableEq, Repr

/-- `formatStructuredContent` of `memory-db.js`: render the object as the
`<memory>` XML, using the field subset of the record type; `none` when no
field has content. -/
def formatStructuredContent (structured : LLMStructured)
    (type : String := "context") (domain : String := "general") : Option String :=
  let what := structured.summary
  let whenText :=
    if 0 < structured.scenarios.length then
      String.intercalate " | " structured.scenarios
    else ""
  let doText := String.intercalate "；" (structured.must ++ structured.prefer)
  let warnText :=
    if 0 < structured.must_not.length then
      String.intercalate "；" structured.must_not
    else ""
  let needsWhen := ["pattern", "context"].contains type
  let needsDo := ["pattern", "bug"].contains type
  let needsWarn := ["pattern", "decision", "preference"].contains type
  let fields : List String :=
    (if what ≠ "" then ["  <what>" ++ escapeXml what ++ "</what>"] else []) ++
    (if needsWhen ∧ whenText ≠ "" then ["  <when>" ++ escapeXml whenText ++ "</when>"] else []) ++
    (if needsDo ∧ doText ≠ "" then ["  <do>" ++ escapeXml doText ++ "</do>"] else []) ++
    (if needsWarn ∧ warnText ≠ "" then ["  <warn>" ++ escapeXml warnText ++ "</warn>"] else [])
  if fields = [] then none
  else some (String.intercalate "\n"
    (("<memory type=\"" ++ type ++ "\" domain=\"" ++ domain ++ "\">") :: fields ++ ["</memory>"]))

/-! ### `tryJoinCluster`

The cosine similarity the source computes over the embedding floats is
irrational-valued; the claims about `tryJoinCluster` hold for every
similarity function, so it is passed as a parameter `simFn`. -/

structure JoinResult where
  clusterId : Nat
  theme : String
  similarity : ℚ
  deriving DecidableEq, Repr

/-- The argmax scan of `tryJoinCluster`: best active cluster by similarity,
subject to the 0.70 threshold, first (earliest-id) winner on ties. -/
def pickBestCluster (simFn : Vec → Vec → ℚ) (embedding : Vec)
    (actives : List Cluster) : Option (Cluster × ℚ) :=
  actives.foldl (fun (acc : Option (Cluster × ℚ)) c =>
    match c.centroid_vector with
    | none => acc
    | some centroid =>
      let s := simFn embedding centroid
      let bestSim : ℚ := match acc with | none => 0 | some p => p.2
      if CLUSTER_SIMILARITY_THRESHOLD ≤ s ∧ bestSim < s then some (c, s) else acc)
    (none : Option (Cluster × ℚ))

/-- The write half of `tryJoinCluster` once a host was found: set the
record's `cluster_id`, bump the host's stats, possibly promote to mature. -/
def joinApply (db : DB) (memoryId : Nat) (bc : Cluster) (confidence : ℚ) : DB :=
  let newCount := bc.member_count + 1
  let newAvgConf := (bc.avg_confidence * (bc.member_count : ℚ) + confidence) / (newCount : ℚ)
  let db1 : DB := { db with memories := db.memories.map (fun m =>
    if m.id = memoryId then { m with cluster_id := some bc.id } else m) }
  let db2 : DB := { db1 with clusters := db1.clusters.map (fun c =>
    if c.id = bc.id then
      { c with member_count := newCount, avg_confidence := newAvgConf,
               updated_at := db.now }
    else c) }
  if CLUSTER_MATURITY_COUNT ≤ newCount ∧ CLUSTER_MATURITY_CONFIDENCE ≤ newAvgConf then
    { db2 with clusters := db2.clusters.map (fun c =>
      if c.id = bc.id ∧ c.status = "growing" then { c with status := "mature" } else c) }
  else db2

/-- `tryJoinCluster` of `memory-db.js`.  Timestamps written by this call use
`db.now`, which the enclosing public call has already advanced. -/
def tryJoinCluster (simFn : Vec → Vec → ℚ) (db : DB) (memoryId : Nat)
    (embedding : Vec) (domain : String) (confidence : ℚ) :
    DB × Option JoinResult :=
  let actives := db.clusters.filter (fun c =>
    c.domain = domain && (c.status = "growing" || c.status = "mature"))
  match pickBestCluster simFn embedding actives with
  | none => (db, none)
  | some (bc, bs) =>
    (joinApply db memoryId bc confidence,
     some { clusterId := bc.id, theme := bc.theme, similarity := bs })

/-! ### `save` -/

structure SaveOptions where
  type : String := "context"
  domain : String := "general"
  tags : String := ""
  confidence : ℚ := 1/2
  source : String := "user"
  trigger : Option String := none
  action : Option String := none
  skipClustering : Bool := false
  skipStructurize : Bool := false
  structuredContent : Option String := none
  deriving DecidableEq, Repr

inductive SaveResult
  /-- `{id, action: 'updated', similarity}` (dedup path). -/
  | updated (id : Nat) (similarity : ℚ)
  /-- `{id: null, action: 'rejected', reason}`. -/
  | rejected (reason : Option String)
  /-- `{id, action: 'created', cluster}`. -/
  | created (id : Nat) (cluster : Option JoinResult)
  deriving DecidableEq, Repr

/-- Outcome of `structurizeWithLLM` (an external call, hence an oracle):
`svcFail` is a `null` return (service down, error or timeout), `svcReject`
the `{__rejected, reason}` verdict, `svcStr` a string return, `svcObj` a
legacy object return. -/
inductive StructurizeOutcome
  | svcFail
  | svcReject (reason : Option String)
  | svcStr (s : String)
  | svcObj (o : LLMStructured)
  deriving DecidableEq, Repr

/-- `x || null` on a nullable JS string (an empty string collapses to null). -/
def jsOrStrOpt (a : Option String) : Option String :=
  match a with
  | none => none
  | some s => if s = "" then none else some s

/-- The 10 most recent records of a `(type, domain)` bucket
(`ORDER BY created_at DESC LIMIT 10`; `created_at` is strictly increasing
over inserts under the logical clock, making the order well defined). -/
def recentByTypeDomain (db : DB) (type domain : String) : List Memory :=
  (sortByDesc (fun m => (m.created_at : ℚ))
    (db.memories.filter (fun m => m.type = type && m.domain = domain))).take 10

/-- The dedup scan of `save`: the first recent record with word-level Jaccard
similarity ≥ 0.95, together with that similarity. -/
def findDup (content : String) : List Memory → Option (Memory × ℚ)
  | [] => none
  | e :: es =>
    let s := textSimilarity content e.content
    if (19 : ℚ)/20 ≤ s then some (e, s) else findDup content es

/-- The record `save` inserts (reading `db0.now`, which the call already
advanced). -/
def newMemOf (db0 : DB) (content : String) (opts : SaveOptions)
    (summary keywords : String) (structuredContent : Option String) : Memory :=
  { id := db0.nextMemId
    content := content
    structured_content := structuredContent
    summary := summary
    type := opts.type
    tags := some opts.tags
    keywords := some keywords
    domain := opts.domain
    confidence := opts.confidence
    source := some opts.source
    trigger := opts.trigger
    action := opts.action
    created_at := db0.now
    updated_at := db0.now }

/-- The insert-and-index tail of `save` (everything from the
`INSERT INTO memories` on: record insert, vector insert, cluster join). -/
def saveInsert (emb : Option Vec) (vecInsertFails : Bool)
    (simFn : Vec → Vec → ℚ) (db0 : DB) (content : String) (opts : SaveOptions)
    (summary keywords : String) (structuredContent : Option String) :
    DB × SaveResult :=
  let memoryId := db0.nextMemId
  let newMem := newMemOf db0 content opts summary keywords structuredContent
  let db1 := { db0 with memories := db0.memories ++ [newMem], nextMemId := memoryId + 1 }
  let db2 := match emb with
    | some v =>
      if vecInsertFails then db1
      else { db1 with vecs := db1.vecs ++ [(memoryId, v)] }
    | none => db1
  match emb, opts.skipClustering with
  | some v, false =>
    let r := tryJoinCluster simFn db2 memoryId v opts.domain opts.confidence
    (r.1, SaveResult.created memoryId r.2)
  | _, _ => (db2, SaveResult.created memoryId none)

/-- The summary `save` computes: 100-character prefix with `...` suffix. -/
def summaryOf (content : String) : String :=
  if 100 < content.length then String.mk (content.data.take 100) ++ "..." else content

def keywordsOf (content : String) : String :=
  String.intercalate "," (extractKeywords content)

/-- `save` of `memory-db.js`.  Oracles: `stz` the structurizer outcome,
`emb` the embedding (none = model unavailable/failed), `vecInsertFails`
whether the caught `memories_vec` insert throws, `simFn` the similarity
used by clustering. -/
def save (stz : StructurizeOutcome) (emb : Option Vec) (vecInsertFails : Bool)
    (simFn : Vec → Vec → ℚ) (db : DB) (content : String)
    (opts : SaveOptions := {}) : DB × SaveResult :=
  let t := db.now + 1
  let db0 := { db with now := t }
  let summary := summaryOf content
  let keywords := keywordsOf content
  match findDup content (recentByTypeDomain db0 opts.type opts.domain) with
  | some es =>
    ({ db0 with memories := db0.memories.map (fun m =>
        if m.id = es.1.id then
          { m with
            last_accessed_at := some t
            access_count := m.access_count + 1
            confidence := min (9/10) (m.confidence + 1/20) }
        else m) },
     .updated es.1.id es.2)
  | none =>
    let preSC := jsOrStrOpt opts.structuredContent
    match preSC.isNone && !opts.skipStructurize, stz with
    | true, .svcReject reason => (db0, .rejected reason)
    | true, .svcFail => saveInsert emb vecInsertFails simFn db0 content opts summary keywords none
    | true, .svcStr s =>
      saveInsert emb vecInsertFails simFn db0 content opts summary keywords
        (if jsStartsWith s "<memory" then some s else none)
    | true, .svcObj o =>
      saveInsert emb vecInsertFails simFn db0 content opts summary keywords
        (formatStructuredContent o opts.type opts.domain)
    | false, _ => saveInsert emb vecInsertFails simFn db0 content opts summary keywords preSC

/-! ### `quickSearch`

The FTS5 MATCH query and its BM25 scores live in SQLite, so the English
phrase path takes its result rows as an oracle `ftsRows` (row order is the
engine's `ORDER BY bm25` output, truncated by `LIMIT limit*2`).  The CJK
n-gram path and the whole-query fallback are `LIKE` scans the embedding
evaluates against the store itself. -/

/-- JS `Map.prototype.set` keyed by record id on an insertion-ordered list. -/
def mapSetEntry (l : List (Memory × ℚ)) (e : Memory × ℚ) : List (Memory × ℚ) :=
  if l.any (fun p => p.1.id = e.1.id) then
    l.map (fun p => if p.1.id = e.1.id then e else p)
  else l ++ [e]

def identStart (c : Char) : Bool := c.isAlpha || c = '_'
def identCont (c : Char) : Bool := identStart c || c.isDigit

/-- Scanner for `query.match(/[a-zA-Z_][a-zA-Z0-9_]*/g)`: `cur` holds the
characters of the identifier in progress, in reverse ([] = not inside one).
A character that cannot continue a token cannot start one either, so no
re-examination is needed on token end. -/
def identScanGo : List Char → List Char → List String
  | [], cur => if cur.isEmpty then [] else [String.mk cur.reverse]
  | c :: cs, cur =>
    if cur.isEmpty then
      if identStart c then identScanGo cs [c] else identScanGo cs []
    else
      if identCont c then identScanGo cs (c :: cur)
      else String.mk cur.reverse :: identScanGo cs []

/-- `query.match(/[a-zA-Z_][a-zA-Z0-9_]*/g)`. -/
def extractIdentTokens (l : List Char) : List String := identScanGo l []

/-- Scanner for the maximal CJK runs of `query.match(/[一-鿿]+/g)`. -/
def cjkScanGo : List Char → List Char → List (List Char)
  | [], cur => if cur.isEmpty then [] else [cur.reverse]
  | c :: cs, cur =>
    if isCJK c then cjkScanGo cs (c :: cur)
    else if cur.isEmpty then cjkScanGo cs []
    else cur.reverse :: cjkScanGo cs []

/-- `query.match(/[一-鿿]+/g)`: maximal CJK runs. -/
def extractCJKRuns (l : List Char) : List (List Char) := cjkScanGo l []

/-- All length-`n` contiguous slices of a run (`segment.slice(i, i+n)`). -/
def sliceGrams (seg : List Char) (n : Nat) : List String :=
  (List.range (seg.length + 1 - n)).map (fun i => String.mk ((seg.drop i).take n))

def insertUniq (l : List String) (x : String) : List String :=
  if l.contains x then l else l ++ [x]

/-- The insertion-ordered n-gram `Set`: per run, its bigrams then its
trigrams. -/
def cjkNgrams (runs : List (List Char)) : List String :=
  runs.foldl (fun acc seg => (sliceGrams seg 2 ++ sliceGrams seg 3).foldl insertUniq acc) []

/-- The fixed CJK stop-n-gram set of `quickSearch`. -/
def stopNgrams : List String := ["是多", "多少", "什么", "怎么", "如何", "为什", "为何"]

/-- The filtered n-gram list actually queried (`…filter(…).slice(0, 10)`). -/
def filteredNgramsOf (query : String) : List String :=
  ((cjkNgrams (extractCJKRuns query.data)).filter (fun ng => !stopNgrams.contains ng)).take 10

/-- The CJK-path score of a record: matched n-grams × 0.5, matching
case-sensitively against `content + ' ' + structured_content`. -/
def ngramMatchScore (ngrams : List String) (m : Memory) : ℚ :=
  let searchText := m.content ++ " " ++ m.structured_content.getD ""
  ((ngrams.filter (fun ng => strHasSub searchText ng)).length : ℚ) * (1/2)

/-- Path 1 of `quickSearch`: the FTS result map (scores `Math.abs`-ed). -/
def ftsPhase (ftsRows : List (Memory × ℚ)) (query : String) (limit : Nat) :
    List (Memory × ℚ) :=
  if (extractIdentTokens query.data).isEmpty then []
  else (ftsRows.take (limit * 2)).foldl (fun acc r => mapSetEntry acc (r.1, |r.2|)) []

/-- Path 2 of `quickSearch`: the CJK n-gram `LIKE` scan; a row already in the
map is skipped (`if (!results.has(r.id))`). -/
def cjkPhase (db : DB) (query : String) (limit : Nat) (acc : List (Memory × ℚ)) :
    List (Memory × ℚ) :=
  let ngrams := filteredNgramsOf query
  if ngrams.isEmpty then acc
  else
    let likeRows := (db.memories.filter (fun m =>
      ngrams.any (fun ng =>
        likeHasSub m.content ng || likeHasSub (m.structured_content.getD "") ng))).take (limit * 2)
    likeRows.foldl (fun acc r =>
      if acc.any (fun p => p.1.id = r.id) then acc
      else acc ++ [(r, ngramMatchScore ngrams r)]) acc

/-- Path 3 of `quickSearch`: whole-query `LIKE` fallback, only when the map
is still empty. -/
def fallbackPhase (db : DB) (query : String) (limit : Nat)
    (acc : List (Memory × ℚ)) : List (Memory × ℚ) :=
  if acc.isEmpty ∧ 0 < query.length then
    ((db.memories.filter (fun m =>
        likeHasSub m.content query ||
        likeHasSub (m.structured_content.getD "") query)).take limit).foldl
      (fun acc r => mapSetEntry acc (r, 3/10)) []
  else acc

/-- `!f || v === f` for a nullable string filter. -/
def jsStrFilter (f : Option String) (v : String) : Bool :=
  match f with
  | none => true
  | some t => t = "" || v = t

structure QSResult where
  id : Nat
  content : String
  rawContent : String
  structuredContent : Option String
  summary : String
  type : String
  domain : String
  confidence : ℚ
  tags : Option String
  createdAt : Nat
  bm25Score : ℚ
  deriving DecidableEq, Repr

def toQSResult (p : Memory × ℚ) : QSResult :=
  { id := p.1.id
    content := jsOrStr p.1.structured_content p.1.content
    rawContent := p.1.content
    structuredContent := p.1.structured_content
    summary := p.1.summary
    type := p.1.type
    domain := p.1.domain
    confidence := p.1.confidence
    tags := p.1.tags
    createdAt := p.1.created_at
    bm25Score := p.2 }

/-- `quickSearch` of `memory-db.js`. -/
def quickSearch (ftsRows : List (Memory × ℚ)) (db : DB) (query : String)
    (limit : Nat := 5) (domain : Option String := none) : List QSResult :=
  let merged := fallbackPhase db query limit
    (cjkPhase db query limit (ftsPhase ftsRows query limit))
  (((sortByDesc (fun p => p.2)
      (merged.filter (fun p => jsStrFilter domain p.1.domain))).take limit).map toQSResult)

/-! ### `search` -/

structure SearchOptions where
  minConfidence : ℚ := 0
  type : Option String := none
  domain : Option String := none
  deriving DecidableEq, Repr

structure SRow where
  id : Nat
  content : String
  summary : String
  type : String
  domain : String
  confidence : ℚ
  tags : Option String
  createdAt : Nat
  bm25Score : ℚ
  vectorSimilarity : ℚ
  vectorDistance : Option ℚ
  combinedScore : ℚ := 0
  deriving DecidableEq, Repr

def srowOfQS (r : QSResult) : SRow :=
  { id := r.id, content := r.content, summary := r.summary, type := r.type
    domain := r.domain, confidence := r.confidence, tags := r.tags
    createdAt := r.createdAt, bm25Score := r.bm25Score
    vectorSimilarity := 0, vectorDistance := none }

def srowSet (l : List SRow) (r : SRow) : List SRow :=
  if l.any (fun p => p.id = r.id) then
    l.map (fun p => if p.id = r.id then r else p)
  else l ++ [r]

/-- Step 1 of `search`: seed the merge map from the `quickSearch` rows. -/
def searchBase (qs : List QSResult) : List SRow :=
  qs.foldl (fun acc r => srowSet acc (srowOfQS r)) []

/-- One vector hit of `search`: overwrite the similarity of a present row,
else fetch the record by id and append it with `bm25 = 0`. -/
def searchVecStep (db : DB) (acc : List SRow) (h : Nat × ℚ) : List SRow :=
  let sim : ℚ := 1 - h.2
  if acc.any (fun p => p.id = h.1) then
    acc.map (fun p =>
      if p.id = h.1 then
        { p with vectorSimilarity := sim, vectorDistance := some h.2 }
      else p)
  else
    match db.memories.find? (fun m => m.id = h.1) with
    | some m => acc ++ [{
        id := m.id
        content := jsOrStr m.structured_content m.content
        summary := m.summary
        type := m.type
        domain := m.domain
        confidence := m.confidence
        tags := m.tags
        createdAt := m.created_at
        bm25Score := 0
        vectorSimilarity := sim
        vectorDistance := some h.2 }]
    | none => acc

/-- Step 2 of `search`: fold the vector oracle rows over the map. -/
def searchWithVec (db : DB) (vecHits : Option (List (Nat × ℚ))) (limit : Nat)
    (base : List SRow) : List SRow :=
  match vecHits with
  | none => base
  | some hits => (hits.take (limit * 2)).foldl (searchVecStep db) base

/-- `search` of `memory-db.js`.  `ftsRows` is the FTS oracle handed down to
`quickSearch`; `vecHits` is the sqlite-vec oracle: `none` models a failed
embedding (`getEmbedding` returned null) or a thrown vector query, `some
hits` the `(rowid, distance)` rows of the `MATCH` query, ordered by
distance, which the `LIMIT` truncates to `limit*2`. -/
def search (ftsRows : List (Memory × ℚ)) (vecHits : Option (List (Nat × ℚ)))
    (db : DB) (query : String) (limit : Nat := 3)
    (opts : SearchOptions := {}) : List SRow :=
  let withVec := searchWithVec db vecHits limit
    (searchBase (quickSearch ftsRows db query (limit * 2)))
  let filtered : List SRow := ((withVec.filter (fun r => opts.minConfidence ≤ r.confidence)).filter
      (fun r => jsStrFilter opts.type r.type)).filter
      (fun r => jsStrFilter opts.domain r.domain)
  let scored : List SRow := filtered.map (fun r =>
    { r with combinedScore := 7/10 * r.vectorSimilarity + 3/10 * min (r.bm25Score / 10) 1 })
  (sortByDesc (fun r => r.combinedScore) scored).take limit

/-- Row-wise consistency of the similarity fields: `vec_sim = 1 − distance`
on a vector hit, 0 otherwise. -/
def vecSimConsistent (r : SRow) : Prop :=
  r.vectorSimilarity = (match r.vectorDistance with | some d => 1 - d | none => 0)

/-- The per-row contract of claim C7: combined-score formula, similarity
derived from the vector distance, and all three filters passed. -/
def searchRowOk (opts : SearchOptions) (r : SRow) : Prop :=
  r.combinedScore = 7/10 * r.vectorSimilarity + 3/10 * min (r.bm25Score / 10) 1 ∧
  vecSimConsistent r ∧
  opts.minConfidence ≤ r.confidence ∧
  jsStrFilter opts.type r.type = true ∧
  jsStrFilter opts.domain r.domain = true

/-! ### `mergeClusterMemories` -/

/-- What the external `llmClient.merge` returned when it was reachable:
either a string (usually the `<memory>` XML) or a legacy object. -/
inductive MergedContent
  | mstr (s : String)
  | mobj (o : LLMStructured)
  deriving DecidableEq, Repr

/-- Members of a cluster, `ORDER BY confidence DESC` (stable). -/
def clusterMembers (db : DB) (clusterId : Nat) : List Memory :=
  sortByDesc (fun m => m.confidence)
    (db.memories.filter (fun m => m.cluster_id = some clusterId))

/-- The modal `type` of the members (`typeCounts`, first-appearance order,
stable sort by count descending, first entry). -/
def modeType (members : List Memory) : String :=
  (((sortByDesc (fun p => (p.2 : ℚ)) (wordFreq (members.map (·.type)))).head?).map
    (·.1)).getD "context"

/-- The guards of `mergeClusterMemories`: the cluster must exist, be
`mature`, and have at least two members. -/
def mergeGuards (db : DB) (clusterId : Nat) : Option (Cluster × List Memory) :=
  match db.clusters.find? (fun c => c.id = clusterId) with
  | none => none
  | some cluster =>
    if cluster.status ≠ "mature" then none
    else
      let members := clusterMembers db clusterId
      if members.length < 2 then none else some (cluster, members)

structure MergeResult where
  memoryId : Nat
  summary : String
  memberCount : Nat
  deriving DecidableEq, Repr

/-- The insertion half of `mergeClusterMemories`: build and insert the
aggregate record (and, on the LLM path, its vector).  Returns the state
after the insert together with the new id and summary. -/
def mergeInsertPhase (merged : Option MergedContent) (emb : Option Vec)
    (vecInsertFails : Bool) (db : DB) (clusterId : Nat) (cluster : Cluster)
    (members : List Memory) : DB × Nat × String :=
  let t := db.now
  let memoryTexts := members.map (fun m => m.structured_content.getD m.content)
  let mainType := modeType members
  let domain := jsOrStr (some cluster.domain) "general"
  let newId := db.nextMemId
  match merged with
  | some mc =>
    let contentSC : String × Option String :=
      match mc with
      | .mstr s =>
        if jsStartsWith s "<memory" then (cluster.theme, some s)
        else
          -- JS property access on a string yields `undefined`, so the
          -- object branch sees only empty fields here.
          (cluster.theme, formatStructuredContent {} mainType domain)
      | .mobj o =>
        (jsOrStr o.content (jsOrStr (some o.summary) cluster.theme),
         formatStructuredContent o mainType domain)
    let summary := match mc with
      | .mstr _ => cluster.theme
      | .mobj o => jsOrStr (some o.summary) cluster.theme
    let keywords := match mc with
      | .mstr _ => ""
      | .mobj o => String.intercalate "," o.triggers
    let newMem : Memory := {
      id := newId
      content := contentSC.1
      structured_content := contentSC.2
      summary := summary
      type := mainType
      domain := domain
      confidence := 9/10
      source := some "cluster-merge"
      trigger := some ("merged from cluster #" ++ toString clusterId ++
        " (" ++ toString members.length ++ " memories)")
      keywords := some keywords
      created_at := t
      updated_at := t }
    let db1 := { db with memories := db.memories ++ [newMem], nextMemId := newId + 1 }
    let db2 := match emb with
      | some v =>
        if vecInsertFails then db1
        else { db1 with vecs := db1.vecs ++ [(newId, v)] }
      | none => db1
    (db2, newId, summary)
  | none =>
    let fallbackContent := String.intercalate "\n---\n" memoryTexts
    let newMem : Memory := {
      id := newId
      content := fallbackContent
      summary := cluster.theme
      type := mainType
      domain := domain
      confidence := 17/20
      source := some "cluster-merge"
      trigger := some ("fallback merge from cluster #" ++ toString clusterId)
      created_at := t
      updated_at := t }
    ({ db with memories := db.memories ++ [newMem], nextMemId := newId + 1 },
     newId, cluster.theme)

/-- The deletion half of `mergeClusterMemories`: drop each member's vector
entry and record, then mark the cluster `merged` with `evolved_at` set. -/
def mergeDeletePhase (db : DB) (clusterId : Nat) (members : List Memory) : DB :=
  let db1 := members.foldl (fun acc m =>
    { acc with
      vecs := acc.vecs.filter (fun p => p.1 ≠ m.id)
      memories := acc.memories.filter (fun mm => mm.id ≠ m.id) }) db
  { db1 with clusters := db1.clusters.map (fun c =>
      if c.id = clusterId then { c with status := "merged", evolved_at := some db.now }
      else c) }

/-- `mergeClusterMemories` of `memory-db.js`.  Oracles as in `save`, plus
`merged`: the outcome of the external `llmClient.merge` call (`none` models
service unavailable / thrown error, triggering the concatenation fallback). -/
def mergeClusterMemories (merged : Option MergedContent) (emb : Option Vec)
    (vecInsertFails : Bool) (db : DB) (clusterId : Nat) :
    DB × Option MergeResult :=
  let db0 := { db with now := db.now + 1 }
  match mergeGuards db0 clusterId with
  | none => (db, none)
  | some cm =>
    let ins := mergeInsertPhase merged emb vecInsertFails db0 clusterId cm.1 cm.2
    (mergeDeletePhase ins.1 clusterId cm.2,
     some { memoryId := ins.2.1, summary := ins.2.2, memberCount := cm.2.length })

/-! ### Time decay (`TIME_DECAY_CONFIG`, `calcTimeDecay`) -/

structure DecayParams where
  /-- `none` models the JS `Infinity` half-life. -/
  halfLifeDays : Option ℚ
  minWeight : ℚ
  deriving DecidableEq, Repr

def contextDecayParams : DecayParams := { halfLifeDays := some 30, minWeight := 1/5 }

/-- The `TIME_DECAY_CONFIG` table of `memory-db.js`. -/
def TIME_DECAY_CONFIG (t : String) : Option DecayParams :=
  if t = "fact" then some { halfLifeDays := some 90, minWeight := 3/10 }
  else if t = "decision" then some { halfLifeDays := some 90, minWeight := 3/10 }
  else if t = "bug" then some { halfLifeDays := some 60, minWeight := 3/10 }
  else if t = "pattern" then some { halfLifeDays := some 90, minWeight := 2/5 }
  else if t = "preference" then some { halfLifeDays := some 60, minWeight := 1/5 }
  else if t = "context" then some contextDecayParams
  else if t = "session" then some { halfLifeDays := some 14, minWeight := 1/10 }
  else if t = "learned" then some { halfLifeDays := some 90, minWeight := 2/5 }
  else if t = "skill" then some { halfLifeDays := none, minWeight := 1 }
  else if t = "permanent" then some { halfLifeDays := none, minWeight := 1 }
  else none

/-- `calcTimeDecay` of `memory-db.js`, with the age expressed in
milliseconds as in the source (`Date.now() − created`).  A missing
`created_at` gives weight 1; an `Infinity` half-life gives weight 1;
otherwise `max(0.5 ^ (ageDays / halfLife), minWeight)`. -/
noncomputable def calcTimeDecay (createdAt : Option ℝ) (nowMs : ℝ)
    (memoryType : String) : ℝ :=
  match createdAt with
  | none => 1
  | some created =>
    let cfg := (TIME_DECAY_CONFIG memoryType).getD contextDecayParams
    match cfg.halfLifeDays with
    | none => 1
    | some hl =>
      let ageDays : ℝ := (nowMs - created) / (1000 * 60 * 60 * 24)
      max ((1 / 2 : ℝ) ^ (ageDays / (hl : ℝ))) (cfg.minWeight : ℝ)

/-! ### Lookup helper and frame relations -/

/-- `SELECT * FROM memories WHERE id = ?` (first match). -/
def findMem (db : DB) (i : Nat) : Option Memory :=
  db.memories.find? (fun m => m.id = i)

/-- `m'` is `m` with at most `cluster_id` changed; and unchanged unless `m`
is the joining record. -/
def joinMemRel (mid : Nat) (m m' : Memory) : Prop :=
  m' = { m with cluster_id := m'.cluster_id } ∧ (m.id ≠ mid → m' = m)

/-- `c'` is `c` with at most `member_count`, `avg_confidence`, `status`,
`updated_at` changed (status only ever to `mature`); and unchanged unless
`c` is the host cluster. -/
def joinClusterRel (hostId : Nat) (c c' : Cluster) : Prop :=
  c'.id = c.id ∧ c'.theme = c.theme ∧ c'.centroid_id = c.centroid_id ∧
  c'.centroid_vector = c.centroid_vector ∧ c'.domain = c.domain ∧
  c'.evolved_at = c.evolved_at ∧ c'.created_at = c.created_at ∧
  (c'.status = c.status ∨ c'.status = "mature") ∧
  (c.id ≠ hostId → c' = c)

/-- Pointwise effect of the dedup `UPDATE` of `save` at timestamp `t`. -/
def dedupRel (aid t : Nat) (m m' : Memory) : Prop :=
  (m.id = aid →
    m' = { m with
      last_accessed_at := some t
      access_count := m.access_count + 1
      confidence := min (9/10) (m.confidence + 1/20) }) ∧
  (m.id ≠ aid → m' = m)

/-! ### Concrete fixtures used by the witnesses -/

def wMem : Memory :=
  { id := 1, content := "use async for db queries", type := "pattern",
    domain := "backend", confidence := 3/5, created_at := 1 }

def wDb : DB := { memories := [wMem], nextMemId := 2, now := 1 }

def wOpts : SaveOptions :=
  { type := "pattern", domain := "backend", skipStructurize := true }

def cexMem : Memory :=
  { id := 1, content := "数据库连接 foo", confidence := 0, created_at := 1 }

def cexDb : DB := { memories := [cexMem], nextMemId := 2, now := 1 }

/-- The merged row the C3 scenario returns (phrase-path score kept). -/
def cexRow : QSResult := toQSResult (cexMem, 1)

def mMem1 : Memory :=
  { id := 1, content := "a", cluster_id := some 7, confidence := 4/5, created_at := 1 }

def mMem2 : Memory :=
  { id := 2, content := "b", cluster_id := some 7, confidence := 3/5, created_at := 2 }

def mClus : Cluster :=
  { id := 7, theme := "t", status := "mature", domain := "devops", member_count := 2 }

def mDb : DB :=
  { memories := [mMem1, mMem2], clusters := [mClus], nextMemId := 3,
    nextClusterId := 8, now := 2 }

def jClus : Cluster :=
  { id := 7, theme := "t", status := "growing", domain := "general",
    centroid_vector := some [1], member_count := 1, avg_confidence := 1/2 }

def jDb : DB :=
  { memories := [wMem], clusters := [jClus], nextMemId := 2, nextClusterId := 8, now := 1 }

/-! ## Generic list lemmas -/

/-! ### Properties of the stable sort -/

theorem mem_insDesc (key : α → ℚ) (a x : α) (l : List α) :
    x ∈ insDesc key a l ↔ x = a ∨ x ∈ l := by
  induction l with
  | nil => simp [insDesc]
  | cons b bs ih =>
    by_cases h : key b < key a
    · simp [insDesc, h]
    · simp [insDesc, h, ih]
      tauto

theorem sorted_insDesc (key : α → ℚ) (a : α) (l : List α)
    (h : l.Sorted (fun x y => key y ≤ key x)) :
    (insDesc key a l).Sorted (fun x y => key y ≤ key x) := by
  induction l with
  | nil => simp [insDesc]
  | cons b bs ih =>
    obtain ⟨hb, hbs⟩ := List.sorted_cons.mp h
    by_cases hk : key b < key a
    · rw [insDesc, if_pos hk]
      refine List.sorted_cons.mpr ⟨?_, h⟩
      intro y hy
      rcases List.mem_cons.mp hy with rfl | hy
      · exact le_of_lt hk
      · exact le_trans (hb y hy) (le_of_lt hk)
    · rw [insDesc, if_neg hk]
      refine List.sorted_cons.mpr ⟨?_, ih hbs⟩
      intro y hy
      rcases (mem_insDesc key a y bs).1 hy with rfl | hy
      · exact not_lt.mp hk
      · exact hb y hy

theorem sorted_foldl_insDesc (key : α → ℚ) (l acc : List α)
    (h : acc.Sorted (fun x y => key y ≤ key x)) :
    (l.foldl (fun acc a => insDesc key a acc) acc).Sorted
      (fun x y => key y ≤ key x) := by
  induction l generalizing acc with
  | nil => exact h
  | cons a as ih => exact ih _ (sorted_insDesc key a acc h)

theorem sorted_sortByDesc (key : α → ℚ) (l : List α) :
    (sortByDesc key l).Sorted (fun x y => key y ≤ key x) :=
  sorted_foldl_insDesc key l [] (List.sorted_nil)

theorem mem_foldl_insDesc (key : α → ℚ) (l acc : List α) (x : α) :
    x ∈ l.foldl (fun acc a => insDesc key a acc) acc ↔ x ∈ acc ∨ x ∈ l := by
  induction l generalizing acc with
  | nil => simp
  | cons a as ih =>
    simp only [List.foldl_cons, ih, mem_insDesc, List.mem_cons]
    tauto

theorem mem_sortByDesc (key : α → ℚ) (l : List α) (x : α) :
    x ∈ sortByDesc key l ↔ x ∈ l := by
  simp [sortByDesc, mem_foldl_insDesc]

theorem length_insDesc (key : α → ℚ) (a : α) (l : List α) :
    (insDesc key a l).length = l.length + 1 := by
  induction l with
  | nil => rfl
  | cons b bs ih =>
    by_cases h : key b < key a <;> simp [insDesc, h, ih]

theorem length_foldl_insDesc (key : α → ℚ) (l acc : List α) :
    (l.foldl (fun acc a => insDesc key a acc) acc).length = acc.length + l.length := by
  induction l generalizing acc with
  | nil => rfl
  | cons a as ih =>
    rw [List.foldl_cons, ih, length_insDesc, List.length_cons]
    omega

theorem length_sortByDesc (key : α → ℚ) (l : List α) :
    (sortByDesc key l).length = l.length := by
  rw [sortByDesc, length_foldl_insDesc]
  simp

/-- If `a` has strictly the greatest key in `a :: l`, inserting keeps it in
front. -/
theorem insDesc_of_lt (key : α → ℚ) (a b : α) (l : List α)
    (h : key b < key a) : insDesc key b (a :: l) = a :: insDesc key b l := by
  simp [insDesc, not_lt_of_gt h, lt_asymm h]

/-- Inserting the strict maximum puts it in front. -/
theorem insDesc_head_of_all_lt (key : α → ℚ) (x : α) (acc : List α)
    (h : ∀ y ∈ acc, key y < key x) : insDesc key x acc = x :: acc := by
  cases acc with
  | nil => rfl
  | cons b bs => simp [insDesc, h b (by simp)]

/-- Once the strict maximum is in front, folding further elements that are
either copies of it or of strictly smaller key keeps it in front. -/
theorem foldl_insDesc_keep_head (key : α → ℚ) (x : α) (l : List α) :
    ∀ rest, (∀ y ∈ l, y = x ∨ key y < key x) →
    ∃ r, l.foldl (fun acc a => insDesc key a acc) (x :: rest) = x :: r := by
  induction l with
  | nil => exact fun rest _ => ⟨rest, rfl⟩
  | cons a as ih =>
    intro rest h
    rcases h a (by simp) with rfl | ha
    · have hstep : insDesc key a (a :: rest) = a :: insDesc key a rest := by
        simp [insDesc]
      simp only [List.foldl_cons, hstep]
      exact ih _ (fun y hy => h y (by simp [hy]))
    · simp only [List.foldl_cons, insDesc_of_lt key x a rest ha]
      exact ih _ (fun y hy => h y (by simp [hy]))

theorem foldl_insDesc_strict_max (key : α → ℚ) (x : α) (l : List α) :
    ∀ acc, (∀ y ∈ acc, key y < key x) → x ∈ l →
    (∀ y ∈ l, y = x ∨ key y < key x) →
    ∃ r, l.foldl (fun acc a => insDesc key a acc) acc = x :: r := by
  classical
  induction l with
  | nil => intro _ _ hx; cases hx
  | cons a as ih =>
    intro acc hacc hx h
    by_cases hax : a = x
    · subst hax
      simp only [List.foldl_cons, insDesc_head_of_all_lt key a acc hacc]
      exact foldl_insDesc_keep_head key a as acc (fun y hy => h y (by simp [hy]))
    · have ha : key a < key x := (h a (by simp)).resolve_left hax
      have hx' : x ∈ as := by
        rcases List.mem_cons.mp hx with rfl | hx'
        · exact absurd rfl hax
        · exact hx'
      refine ih (insDesc key a acc) ?_ hx' (fun y hy => h y (by simp [hy]))
      intro y hy
      rcases (mem_insDesc key a y acc).1 hy with rfl | hy'
      · exact ha
      · exact hacc y hy'

/-- Sorting a list whose element `x` has strictly the greatest key (any other
occurrence being a copy of `x`) puts `x` first. -/
theorem sortByDesc_strict_max (key : α → ℚ) (l : List α) (x : α)
    (hx : x ∈ l) (hmax : ∀ y ∈ l, y = x ∨ key y < key x) :
    ∃ r, sortByDesc key l = x :: r :=
  foldl_insDesc_strict_max key x l [] (by simp) hx hmax

theorem forall₂_map_self {R : α → α → Prop} (f : α → α) (l : List α)
    (h : ∀ a ∈ l, R a (f a)) : List.Forall₂ R l (l.map f) := by
  induction l with
  | nil => exact List.Forall₂.nil
  | cons a as ih =>
    exact List.Forall₂.cons (h a (by simp)) (ih (fun a ha => h a (by simp [ha])))

theorem forall₂_refl_of {R : α → α → Prop} (l : List α) (h : ∀ a ∈ l, R a a) :
    List.Forall₂ R l l := by
  have h2 := forall₂_map_self (R := R) id l (by simpa using h)
  simpa using h2

theorem forall₂_mem_right {R : α → β → Prop} {l : List α} {l' : List β}
    (h : List.Forall₂ R l l') : ∀ b ∈ l', ∃ a ∈ l, R a b := by
  induction h with
  | nil => simp
  | cons hr _ ih =>
    intro b hb
    rcases List.mem_cons.mp hb with rfl | hb
    · exact ⟨_, by simp, hr⟩
    · rcases ih b hb with ⟨a, ha, har⟩
      exact ⟨a, by simp [ha], har⟩

theorem forall₂_mem_left {R : α → β → Prop} {l : List α} {l' : List β}
    (h : List.Forall₂ R l l') : ∀ a ∈ l, ∃ b ∈ l', R a b := by
  induction h with
  | nil => simp
  | cons hr _ ih =>
    intro a ha
    rcases List.mem_cons.mp ha with rfl | ha
    · exact ⟨_, by simp, hr⟩
    · rcases ih a ha with ⟨b, hb, hbr⟩
      exact ⟨b, by simp [hb], hbr⟩

/-! ## Frame lemmas for `tryJoinCluster` -/

theorem joinApply_frame (db : DB) (mid : Nat) (bc : Cluster) (conf : ℚ) :
    (joinApply db mid bc conf).vecs = db.vecs ∧
    (joinApply db mid bc conf).nextMemId = db.nextMemId ∧
    (joinApply db mid bc conf).nextClusterId = db.nextClusterId ∧
    (joinApply db mid bc conf).now = db.now ∧
    List.Forall₂ (joinMemRel mid) db.memories (joinApply db mid bc conf).memories ∧
    List.Forall₂ (joinClusterRel bc.id) db.clusters (joinApply db mid bc conf).clusters := by
  unfold joinApply
  by_cases hmat : CLUSTER_MATURITY_COUNT ≤ bc.member_count + 1 ∧
      CLUSTER_MATURITY_CONFIDENCE ≤
        (bc.avg_confidence * (bc.member_count : ℚ) + conf) / ((bc.member_count + 1 : Nat) : ℚ)
  · simp only [if_pos hmat, List.map_map]
    refine ⟨by trivial, by trivial, by trivial, by trivial, ?_, ?_⟩
    · refine forall₂_map_self _ _ (fun m _ => ?_)
      by_cases hm : m.id = mid
      · exact ⟨by simp [hm], fun hne => absurd hm hne⟩
      · exact ⟨by simp [hm], fun _ => by simp [hm]⟩
    · refine forall₂_map_self _ _ (fun c _ => ?_)
      by_cases hc : c.id = bc.id
      · by_cases hg : c.status = "growing"
        · refine ⟨by simp [hc, hg], by simp [hc, hg], by simp [hc, hg],
            by simp [hc, hg], by simp [hc, hg], by simp [hc, hg], by simp [hc, hg],
            Or.inr (by simp [hc, hg]), fun hne => absurd hc hne⟩
        · refine ⟨by simp [hc, hg], by simp [hc, hg], by simp [hc, hg],
            by simp [hc, hg], by simp [hc, hg], by simp [hc, hg], by simp [hc, hg],
            Or.inl (by simp [hc, hg]), fun hne => absurd hc hne⟩
      · refine ⟨by simp [hc], by simp [hc], by simp [hc], by simp [hc],
          by simp [hc], by simp [hc], by simp [hc], Or.inl (by simp [hc]),
          fun _ => by simp [hc]⟩
  · simp only [if_neg hmat]
    refine ⟨by trivial, by trivial, by trivial, by trivial, ?_, ?_⟩
    · refine forall₂_map_self _ _ (fun m _ => ?_)
      by_cases hm : m.id = mid
      · exact ⟨by simp [hm], fun hne => absurd hm hne⟩
      · exact ⟨by simp [hm], fun _ => by simp [hm]⟩
    · refine forall₂_map_self _ _ (fun c _ => ?_)
      by_cases hc : c.id = bc.id
      · refine ⟨by simp [hc], by simp [hc], by simp [hc], by simp [hc],
          by simp [hc], by simp [hc], by simp [hc], Or.inl (by simp [hc]),
          fun hne => absurd hc hne⟩
      · refine ⟨by simp [hc], by simp [hc], by simp [hc], by simp [hc],
          by simp [hc], by simp [hc], by simp [hc], Or.inl (by simp [hc]),
          fun _ => by simp [hc]⟩

theorem tryJoinCluster_frame (simFn : Vec → Vec → ℚ) (db : DB) (mid : Nat)
    (v : Vec) (dom : String) (conf : ℚ) :
    (tryJoinCluster simFn db mid v dom conf).1.vecs = db.vecs ∧
    (tryJoinCluster simFn db mid v dom conf).1.nextMemId = db.nextMemId ∧
    (tryJoinCluster simFn db mid v dom conf).1.nextClusterId = db.nextClusterId ∧
    (tryJoinCluster simFn db mid v dom conf).1.now = db.now ∧
    List.Forall₂ (joinMemRel mid) db.memories
      (tryJoinCluster simFn db mid v dom conf).1.memories ∧
    (∀ jr, (tryJoinCluster simFn db mid v dom conf).2 = some jr →
      List.Forall₂ (joinClusterRel jr.clusterId) db.clusters
        (tryJoinCluster simFn db mid v dom conf).1.clusters) ∧
    ((tryJoinCluster simFn db mid v dom conf).2 = none →
      (tryJoinCluster simFn db mid v dom conf).1 = db) := by
  rcases hb : pickBestCluster simFn v (db.clusters.filter (fun c =>
      c.domain = dom && (c.status = "growing" || c.status = "mature"))) with _ | ⟨bc, bs⟩
  · have e : tryJoinCluster simFn db mid v dom conf = (db, none) := by
      simp only [tryJoinCluster, hb]
    rw [e]
    exact ⟨rfl, rfl, rfl, rfl, forall₂_refl_of _ (fun m _ => ⟨rfl, fun _ => rfl⟩),
      fun jr hjr => by simp at hjr, fun _ => rfl⟩
  · have e : tryJoinCluster simFn db mid v dom conf =
        (joinApply db mid bc conf,
         some { clusterId := bc.id, theme := bc.theme, similarity := bs }) := by
      simp only [tryJoinCluster, hb]
    obtain ⟨h1, h2, h3, h4, h5, h6⟩ := joinApply_frame db mid bc conf
    rw [e]
    refine ⟨h1, h2, h3, h4, h5, ?_, ?_⟩
    · intro jr hjr
      simp only [Option.some.injEq] at hjr
      have hcid : jr.clusterId = bc.id := by rw [← hjr]
      rw [hcid]
      exact h6
    · intro hcon
      simp at hcon

/-! ## Frame lemma for `saveInsert` and the created path of `save` -/

theorem saveInsert_frame (emb : Option Vec) (vf : Bool) (simFn : Vec → Vec → ℚ)
    (db0 : DB) (content : String) (opts : SaveOptions) (summary keywords : String)
    (sc : Option String) :
    (∃ jr, (saveInsert emb vf simFn db0 content opts summary keywords sc).2 =
      .created db0.nextMemId jr) ∧
    (saveInsert emb vf simFn db0 content opts summary keywords sc).1.nextMemId =
      db0.nextMemId + 1 ∧
    (saveInsert emb vf simFn db0 content opts summary keywords sc).1.now = db0.now ∧
    List.Forall₂ (joinMemRel db0.nextMemId)
      (db0.memories ++ [newMemOf db0 content opts summary keywords sc])
      (saveInsert emb vf simFn db0 content opts summary keywords sc).1.memories ∧
    ((vf = true ∨ emb = none) →
      (saveInsert emb vf simFn db0 content opts summary keywords sc).1.vecs = db0.vecs) := by
  have hrefl : List.Forall₂ (joinMemRel db0.nextMemId)
      (db0.memories ++ [newMemOf db0 content opts summary keywords sc])
      (db0.memories ++ [newMemOf db0 content opts summary keywords sc]) :=
    forall₂_refl_of _ (fun m _ => ⟨rfl, fun _ => rfl⟩)
  cases emb with
  | none => exact ⟨⟨none, rfl⟩, rfl, rfl, hrefl, fun _ => rfl⟩
  | some v =>
    cases hs : opts.skipClustering with
    | true =>
      cases vf with
      | true => exact ⟨⟨none, by simp [saveInsert, hs]⟩, by simp [saveInsert, hs],
          by simp [saveInsert, hs], by simp only [saveInsert, hs]; exact hrefl,
          fun _ => by simp [saveInsert, hs]⟩
      | false =>
        refine ⟨⟨none, by simp [saveInsert, hs]⟩, by simp [saveInsert, hs],
          by simp [saveInsert, hs], by simp only [saveInsert, hs]; exact hrefl, ?_⟩
        rintro (h | h) <;> exact absurd h (by simp)
    | false =>
      have e : saveInsert (some v) vf simFn db0 content opts summary keywords sc =
          ((tryJoinCluster simFn
              (if vf then
                ({ db0 with
                    memories := db0.memories ++
                      [newMemOf db0 content opts summary keywords sc]
                    nextMemId := db0.nextMemId + 1 } : DB)
               else
                { db0 with
                  memories := db0.memories ++
                    [newMemOf db0 content opts summary keywords sc]
                  nextMemId := db0.nextMemId + 1
                  vecs := db0.vecs ++ [(db0.nextMemId, v)] })
              db0.nextMemId v opts.domain opts.confidence).1,
           .created db0.nextMemId
             (tryJoinCluster simFn
              (if vf then
                ({ db0 with
                    memories := db0.memories ++
                      [newMemOf db0 content opts summary keywords sc]
                    nextMemId := db0.nextMemId + 1 } : DB)
               else
                { db0 with
                  memories := db0.memories ++
                    [newMemOf db0 content opts summary keywords sc]
                  nextMemId := db0.nextMemId + 1
                  vecs := db0.vecs ++ [(db0.nextMemId, v)] })
              db0.nextMemId v opts.domain opts.confidence).2) := by
        cases vf <;> simp [saveInsert, hs]
      rw [e]
      cases vf with
      | true =>
        obtain ⟨h1, h2, h3, h4, h5, _h6, _h7⟩ := tryJoinCluster_frame simFn
          ({ db0 with
              memories := db0.memories ++ [newMemOf db0 content opts summary keywords sc]
              nextMemId := db0.nextMemId + 1 } : DB)
          db0.nextMemId v opts.domain opts.confidence
        simp only [if_pos rfl] at *
        exact ⟨⟨_, rfl⟩, h2, h4, h5, fun _ => h1⟩
      | false =>
        obtain ⟨h1, h2, h3, h4, h5, _h6, _h7⟩ := tryJoinCluster_frame simFn
          ({ db0 with
              memories := db0.memories ++ [newMemOf db0 content opts summary keywords sc]
              nextMemId := db0.nextMemId + 1
              vecs := db0.vecs ++ [(db0.nextMemId, v)] } : DB)
          db0.nextMemId v opts.domain opts.confidence
        simp only [if_neg (by simp : ¬(false = true))] at *
        refine ⟨⟨_, rfl⟩, h2, h4, h5, ?_⟩
        rintro (h | h) <;> exact absurd h (by simp)

/-- When the dedup scan misses and the structurizer does not reject, `save`
runs the insert tail: the call returns `created` with the fresh id, the id
counter advances, the new state's memories are the old ones plus the
inserted record (modulo `cluster_id` writes of the join), and a failed or
absent vector insert leaves the vector table unchanged. -/
theorem save_eq_of_dup_none (stz : StructurizeOutcome) (emb : Option Vec)
    (vf : Bool) (simFn : Vec → Vec → ℚ) (db : DB) (content : String)
    (opts : SaveOptions)
    (hdup : findDup content (recentByTypeDomain { db with now := db.now + 1 }
        opts.type opts.domain) = none) :
    save stz emb vf simFn db content opts =
      (match ((jsOrStrOpt opts.structuredContent).isNone && !opts.skipStructurize), stz with
       | true, .svcReject reason => ({ db with now := db.now + 1 }, .rejected reason)
       | true, .svcFail => saveInsert emb vf simFn { db with now := db.now + 1 }
           content opts (summaryOf content) (keywordsOf content) none
       | true, .svcStr s => saveInsert emb vf simFn { db with now := db.now + 1 }
           content opts (summaryOf content) (keywordsOf content)
           (if jsStartsWith s "<memory" then some s else none)
       | true, .svcObj o => saveInsert emb vf simFn { db with now := db.now + 1 }
           content opts (summaryOf content) (keywordsOf content)
           (formatStructuredContent o opts.type opts.domain)
       | false, _ => saveInsert emb vf simFn { db with now := db.now + 1 }
           content opts (summaryOf content) (keywordsOf content)
           (jsOrStrOpt opts.structuredContent)) := by
  simp only [save, hdup]

theorem save_created_spec (stz : StructurizeOutcome) (emb : Option Vec)
    (vf : Bool) (simFn : Vec → Vec → ℚ) (db : DB) (content : String)
    (opts : SaveOptions)
    (hdup : findDup content (recentByTypeDomain { db with now := db.now + 1 }
        opts.type opts.domain) = none)
    (hrej : ((jsOrStrOpt opts.structuredContent).isNone && !opts.skipStructurize) = true →
        ∀ r, stz ≠ .svcReject r) :
    (∃ jr, (save stz emb vf simFn db content opts).2 = .created db.nextMemId jr) ∧
    (save stz emb vf simFn db content opts).1.nextMemId = db.nextMemId + 1 ∧
    (save stz emb vf simFn db content opts).1.now = db.now + 1 ∧
    (∃ sc, List.Forall₂ (joinMemRel db.nextMemId)
      (db.memories ++ [newMemOf { db with now := db.now + 1 } content opts
        (summaryOf content) (keywordsOf content) sc])
      (save stz emb vf simFn db content opts).1.memories) ∧
    ((vf = true ∨ emb = none) →
      (save stz emb vf simFn db content opts).1.vecs = db.vecs) := by
  have hsave := save_eq_of_dup_none stz emb vf simFn db content opts hdup
  have main : ∀ sc,
      (save stz emb vf simFn db content opts =
        saveInsert emb vf simFn { db with now := db.now + 1 } content opts
          (summaryOf content) (keywordsOf content) sc) →
      (∃ jr, (save stz emb vf simFn db content opts).2 = .created db.nextMemId jr) ∧
      (save stz emb vf simFn db content opts).1.nextMemId = db.nextMemId + 1 ∧
      (save stz emb vf simFn db content opts).1.now = db.now + 1 ∧
      (∃ sc, List.Forall₂ (joinMemRel db.nextMemId)
        (db.memories ++ [newMemOf { db with now := db.now + 1 } content opts
          (summaryOf content) (keywordsOf content) sc])
        (save stz emb vf simFn db content opts).1.memories) ∧
      ((vf = true ∨ emb = none) →
        (save stz emb vf simFn db content opts).1.vecs = db.vecs) := by
    intro sc he
    obtain ⟨h1, h2, h3, h4, h5⟩ := saveInsert_frame emb vf simFn
      { db with now := db.now + 1 } content opts (summaryOf content) (keywordsOf content) sc
    rw [he]
    exact ⟨h1, h2, h3, ⟨sc, h4⟩, h5⟩
  cases hb : ((jsOrStrOpt opts.structuredContent).isNone && !opts.skipStructurize) with
  | false =>
    refine main (jsOrStrOpt opts.structuredContent) ?_
    simp only [hsave, hb]
  | true =>
    cases stz with
    | svcFail =>
      refine main none ?_
      simp only [hsave, hb]
    | svcReject r => exact absurd rfl (hrej hb r)
    | svcStr s =>
      refine main (if jsStartsWith s "<memory" then some s else none) ?_
      simp only [hsave, hb]
    | svcObj o =>
      refine main (formatStructuredContent o opts.type opts.domain) ?_
      simp only [hsave, hb]

/-- The record created by a non-dedup, non-rejected `save`, with the fields
the claims inspect. -/
theorem save_created_mem (stz : StructurizeOutcome) (emb : Option Vec)
    (vf : Bool) (simFn : Vec → Vec → ℚ) (db : DB) (content : String)
    (opts : SaveOptions)
    (hdup : findDup content (recentByTypeDomain { db with now := db.now + 1 }
        opts.type opts.domain) = none)
    (hrej : ((jsOrStrOpt opts.structuredContent).isNone && !opts.skipStructurize) = true →
        ∀ r, stz ≠ .svcReject r) :
    ∃ m ∈ (save stz emb vf simFn db content opts).1.memories,
      m.id = db.nextMemId ∧ m.confidence = opts.confidence ∧ m.content = content ∧
      m.type = opts.type ∧ m.domain = opts.domain ∧ m.created_at = db.now + 1 ∧
      m.access_count = 0 := by
  obtain ⟨_, _, _, ⟨sc, h4⟩, _⟩ := save_created_spec stz emb vf simFn db content opts hdup hrej
  obtain ⟨m', hm', hrel⟩ := forall₂_mem_left h4
    (newMemOf { db with now := db.now + 1 } content opts
      (summaryOf content) (keywordsOf content) sc) (by simp)
  refine ⟨m', hm', ?_, ?_, ?_, ?_, ?_, ?_, ?_⟩ <;> rw [hrel.1] <;> rfl

/-! ## C1: confidence at rest -/

/-- C1 counterexample: `save` inserts the supplied confidence without any
clamp — saving with confidence 0.95 leaves a Record at rest whose
confidence is outside `[0.3, 0.9]`. -/
theorem C1_counterexample :
    ∃ m ∈ (save .svcFail none false (fun _ _ => 0) ({} : DB) "x"
        { skipStructurize := true, confidence := 19/20 }).1.memories,
      m.confidence = 19/20 ∧ ¬(3/10 ≤ m.confidence ∧ m.confidence ≤ 9/10) := by
  obtain ⟨m, hm, _, hconf, _⟩ := save_created_mem .svcFail none false (fun _ _ => 0)
    {} "x" { skipStructurize := true, confidence := 19/20 } (by rfl)
    (by intro _ r h; cases h)
  refine ⟨m, hm, hconf, ?_⟩
  rw [hconf]
  norm_num

/-- C1 (amended): `save` inserts the supplied confidence unclamped; the
clamp of the claim holds only for the mutations: `validate` clamps into
`[0.3, 0.9]` unconditionally, and the dedup update and `auto_boost` (with
non-negative boost) map confidences inside `[0.3, 0.9]` back into it. -/
theorem C1_amended_confidence :
    (∀ (stz : StructurizeOutcome) (emb : Option Vec) (vf : Bool)
        (simFn : Vec → Vec → ℚ) (db : DB) (content : String) (opts : SaveOptions),
      findDup content (recentByTypeDomain { db with now := db.now + 1 }
        opts.type opts.domain) = none →
      (((jsOrStrOpt opts.structuredContent).isNone && !opts.skipStructurize) = true →
        ∀ r, stz ≠ .svcReject r) →
      ∃ m ∈ (save stz emb vf simFn db content opts).1.memories,
        m.id = db.nextMemId ∧ m.confidence = opts.confidence) ∧
    (∀ (db : DB) (i : Nat) (bv : Bool),
      ∀ m' ∈ (validateMemory db i bv).memories, m'.id = i →
        3/10 ≤ m'.confidence ∧ m'.confidence ≤ 9/10) ∧
    (∀ (stz : StructurizeOutcome) (emb : Option Vec) (vf : Bool)
        (simFn : Vec → Vec → ℚ) (db : DB) (content : String) (opts : SaveOptions),
      (∀ m ∈ db.memories, 3/10 ≤ m.confidence ∧ m.confidence ≤ 9/10) →
      ∀ id s, (save stz emb vf simFn db content opts).2 = .updated id s →
      ∀ m' ∈ (save stz emb vf simFn db content opts).1.memories,
        3/10 ≤ m'.confidence ∧ m'.confidence ≤ 9/10) ∧
    (∀ (db : DB) (i : Nat) (boost : ℚ), 0 ≤ boost →
      (∀ m ∈ db.memories, 3/10 ≤ m.confidence ∧ m.confidence ≤ 9/10) →
      ∀ m' ∈ (autoBoostConfidence db i boost).memories,
        3/10 ≤ m'.confidence ∧ m'.confidence ≤ 9/10) := by
  refine ⟨?_, ?_, ?_, ?_⟩
  · intro stz emb vf simFn db content opts hdup hrej
    obtain ⟨m, hm, hid, hconf, _⟩ :=
      save_created_mem stz emb vf simFn db content opts hdup hrej
    exact ⟨m, hm, hid, hconf⟩
  · intro db i bv m' hm' hid
    obtain ⟨m, hm, rfl⟩ := List.mem_map.mp hm'
    by_cases h : m.id = i
    · rw [if_pos h]
      constructor
      · exact le_max_left _ _
      · exact max_le (by norm_num) (min_le_left _ _)
    · rw [if_neg h] at hid ⊢
      exact absurd hid h
  · intro stz emb vf simFn db content opts hinv id s hupd m' hm'
    cases hd : findDup content (recentByTypeDomain { db with now := db.now + 1 }
        opts.type opts.domain) with
    | some es =>
      have hst : (save stz emb vf simFn db content opts).1.memories =
          db.memories.map (fun m =>
            if m.id = es.1.id then
              { m with
                last_accessed_at := some (db.now + 1)
                access_count := m.access_count + 1
                confidence := min (9/10) (m.confidence + 1/20) }
            else m) := by
        simp only [save, hd]
      rw [hst] at hm'
      obtain ⟨m, hm, rfl⟩ := List.mem_map.mp hm'
      by_cases h : m.id = es.1.id
      · rw [if_pos h]
        refine ⟨le_min (by norm_num) ?_, min_le_left _ _⟩
        have := (hinv m hm).1
        linarith
      · rw [if_neg h]
        exact hinv m hm
    | none =>
      exfalso
      have hsave := save_eq_of_dup_none stz emb vf simFn db content opts hd
      rw [hsave] at hupd
      cases hb : ((jsOrStrOpt opts.structuredContent).isNone && !opts.skipStructurize) with
      | true =>
        cases stz with
        | svcReject r =>
          simp only [hb] at hupd
          cases hupd
        | svcFail =>
          obtain ⟨jr, hjr⟩ := (saveInsert_frame emb vf simFn { db with now := db.now + 1 }
            content opts (summaryOf content) (keywordsOf content) none).1
          simp only [hb] at hupd
          rw [hjr] at hupd
          cases hupd
        | svcStr str =>
          obtain ⟨jr, hjr⟩ := (saveInsert_frame emb vf simFn { db with now := db.now + 1 }
            content opts (summaryOf content) (keywordsOf content)
            (if jsStartsWith str "<memory" then some str else none)).1
          simp only [hb] at hupd
          rw [hjr] at hupd
          cases hupd
        | svcObj o =>
          obtain ⟨jr, hjr⟩ := (saveInsert_frame emb vf simFn { db with now := db.now + 1 }
            content opts (summaryOf content) (keywordsOf content)
            (formatStructuredContent o opts.type opts.domain)).1
          simp only [hb] at hupd
          rw [hjr] at hupd
          cases hupd
      | false =>
        obtain ⟨jr, hjr⟩ := (saveInsert_frame emb vf simFn { db with now := db.now + 1 }
          content opts (summaryOf content) (keywordsOf content)
          (jsOrStrOpt opts.structuredContent)).1
        simp only [hb] at hupd
        rw [hjr] at hupd
        cases hupd
  · intro db i boost hboost hinv m' hm'
    obtain ⟨m, hm, rfl⟩ := List.mem_map.mp hm'
    by_cases h : m.id = i
    · rw [if_pos h]
      refine ⟨le_min (by norm_num) ?_, min_le_left _ _⟩
      have := (hinv m hm).1
      linarith
    · rw [if_neg h]
      exact hinv m hm

theorem C1_witness :
    (∃ m ∈ (save .svcFail none false (fun _ _ => 0) ({} : DB) "hello"
        { skipStructurize := true, confidence := 19/20 }).1.memories,
      m.id = ({} : DB).nextMemId ∧ m.confidence = 19/20) ∧
    (∀ m' ∈ (validateMemory wDb 1 true).memories, m'.id = 1 →
      3/10 ≤ m'.confidence ∧ m'.confidence ≤ 9/10) :=
  ⟨C1_amended_confidence.1 .svcFail none false (fun _ _ => 0) {} "hello"
      { skipStructurize := true, confidence := 19/20 } (by rfl) (by intro _ r h; cases h),
   C1_amended_confidence.2.1 wDb 1 true⟩

/-! ## C2: `save` is not transactional -/

/-- C2 counterexample: the vector insert fails inside `save`, the failure is
caught, and the Record inserted earlier survives — the call still returns
`created` and no rollback occurs. -/
theorem C2_counterexample :
    (∃ m ∈ (save .svcFail (some [1]) true (fun _ _ => 0) ({} : DB) "x"
        { skipStructurize := true }).1.memories, m.content = "x") ∧
    (save .svcFail (some [1]) true (fun _ _ => 0) ({} : DB) "x"
        { skipStructurize := true }).1.vecs = [] ∧
    (∃ jr, (save .svcFail (some [1]) true (fun _ _ => 0) ({} : DB) "x"
        { skipStructurize := true }).2 = .created 1 jr) := by
  obtain ⟨h1, _, _, _, h5⟩ := save_created_spec .svcFail (some [1]) true (fun _ _ => 0)
    {} "x" { skipStructurize := true } (by rfl) (by intro _ r h; cases h)
  obtain ⟨m, hm, _, _, hcont, _⟩ := save_created_mem .svcFail (some [1]) true (fun _ _ => 0)
    {} "x" { skipStructurize := true } (by rfl) (by intro _ r h; cases h)
  exact ⟨⟨m, hm, hcont⟩, h5 (Or.inl rfl), h1⟩

/-- C2 (amended): `save` runs in no transaction.  When the vector insert
after the Record insert fails, the error is swallowed: the Record survives
in the store, the vector table is left as it was, and the call returns
`created` — no partial-state abort happens. -/
theorem C2_amended_no_rollback (stz : StructurizeOutcome) (v : Vec)
    (simFn : Vec → Vec → ℚ) (db : DB) (content : String) (opts : SaveOptions)
    (hdup : findDup content (recentByTypeDomain { db with now := db.now + 1 }
        opts.type opts.domain) = none)
    (hrej : ((jsOrStrOpt opts.structuredContent).isNone && !opts.skipStructurize) = true →
        ∀ r, stz ≠ .svcReject r) :
    (save stz (some v) true simFn db content opts).1.vecs = db.vecs ∧
    (∃ m ∈ (save stz (some v) true simFn db content opts).1.memories,
      m.id = db.nextMemId ∧ m.content = content) ∧
    (∃ jr, (save stz (some v) true simFn db content opts).2 =
      .created db.nextMemId jr) := by
  obtain ⟨h1, _, _, _, h5⟩ := save_created_spec stz (some v) true simFn db content opts hdup hrej
  obtain ⟨m, hm, hid, _, hcont, _⟩ :=
    save_created_mem stz (some v) true simFn db content opts hdup hrej
  exact ⟨h5 (Or.inl rfl), ⟨m, hm, hid, hcont⟩, h1⟩

theorem C2_witness :
    (save .svcFail (some [1]) true (fun _ _ => 0) ({} : DB) "y"
        { skipStructurize := true }).1.vecs = ({} : DB).vecs ∧
    (∃ m ∈ (save .svcFail (some [1]) true (fun _ _ => 0) ({} : DB) "y"
        { skipStructurize := true }).1.memories,
      m.id = ({} : DB).nextMemId ∧ m.content = "y") ∧
    (∃ jr, (save .svcFail (some [1]) true (fun _ _ => 0) ({} : DB) "y"
        { skipStructurize := true }).2 = .created ({} : DB).nextMemId jr) :=
  C2_amended_no_rollback .svcFail [1] (fun _ _ => 0) {} "y" { skipStructurize := true }
    (by rfl) (by intro _ r h; cases h)

/-! ## Lemmas for `mergeClusterMemories` -/

/-- The per-member delete loop equals one combined filter on both tables. -/
theorem mergeDelete_fold (members : List Memory) (db : DB) :
    (members.foldl (fun acc m =>
      { acc with
        vecs := acc.vecs.filter (fun p => p.1 ≠ m.id)
        memories := acc.memories.filter (fun mm => mm.id ≠ m.id) }) db) =
    { db with
      vecs := db.vecs.filter (fun p => members.all (fun m => p.1 ≠ m.id))
      memories := db.memories.filter (fun mm => members.all (fun m => mm.id ≠ m.id)) } := by
  induction members generalizing db with
  | nil => simp
  | cons m ms ih =>
    rw [List.foldl_cons, ih]
    congr 1
    · rw [List.filter_filter]
      apply List.filter_congr
      intro x _
      rw [List.all_cons, Bool.and_comm]
    · rw [List.filter_filter]
      apply List.filter_congr
      intro x _
      rw [List.all_cons, Bool.and_comm]

theorem mergeDeletePhase_spec (db : DB) (cid : Nat) (members : List Memory) :
    (mergeDeletePhase db cid members).memories =
      db.memories.filter (fun mm => members.all (fun m => mm.id ≠ m.id)) ∧
    (mergeDeletePhase db cid members).vecs =
      db.vecs.filter (fun p => members.all (fun m => p.1 ≠ m.id)) ∧
    (mergeDeletePhase db cid members).clusters =
      db.clusters.map (fun c =>
        if c.id = cid then { c with status := "merged", evolved_at := some db.now }
        else c) ∧
    (mergeDeletePhase db cid members).nextMemId = db.nextMemId := by
  unfold mergeDeletePhase
  rw [mergeDelete_fold]
  exact ⟨rfl, rfl, rfl, rfl⟩

theorem mergeInsertPhase_spec (merged : Option MergedContent) (emb : Option Vec)
    (vf : Bool) (db0 : DB) (cid : Nat) (cluster : Cluster) (members : List Memory) :
    (mergeInsertPhase merged emb vf db0 cid cluster members).2.1 = db0.nextMemId ∧
    (mergeInsertPhase merged emb vf db0 cid cluster members).1.now = db0.now ∧
    (mergeInsertPhase merged emb vf db0 cid cluster members).1.clusters = db0.clusters ∧
    (∃ newRec,
      (mergeInsertPhase merged emb vf db0 cid cluster members).1.memories =
        db0.memories ++ [newRec] ∧
      newRec.id = db0.nextMemId ∧ newRec.source = some "cluster-merge" ∧
      newRec.cluster_id = none ∧
      newRec.confidence = (if merged.isSome then 9/10 else 17/20) ∧
      (merged = none → newRec.content = String.intercalate "\n---\n"
        (members.map (fun m => m.structured_content.getD m.content)))) := by
  cases merged with
  | none =>
    refine ⟨rfl, rfl, rfl, _, rfl, rfl, rfl, rfl, by simp, fun _ => rfl⟩
  | some mc =>
    cases emb with
    | none =>
      exact ⟨rfl, rfl, rfl, _, rfl, rfl, rfl, rfl, by simp, by simp⟩
    | some v =>
      cases vf with
      | true => exact ⟨rfl, rfl, rfl, _, rfl, rfl, rfl, rfl, by simp, by simp⟩
      | false => exact ⟨rfl, rfl, rfl, _, rfl, rfl, rfl, rfl, by simp, by simp⟩

/-! ## C3: `quickSearch` path merge -/

theorem nodup_ids_mapSetEntry (l : List (Memory × ℚ)) (e : Memory × ℚ)
    (h : (l.map (fun p => p.1.id)).Nodup) :
    ((mapSetEntry l e).map (fun p => p.1.id)).Nodup := by
  unfold mapSetEntry
  by_cases ha : l.any (fun p => p.1.id = e.1.id)
  · rw [if_pos ha]
    have heq : (l.map (fun p => if p.1.id = e.1.id then e else p)).map (fun p => p.1.id) =
        l.map (fun p => p.1.id) := by
      rw [List.map_map]
      apply List.map_congr_left
      intro p _
      by_cases h2 : p.1.id = e.1.id
      · simp [Function.comp, h2]
      · simp [Function.comp, h2]
    rw [heq]
    exact h
  · rw [if_neg ha, List.map_append]
    rw [List.nodup_append]
    refine ⟨h, by simp, ?_⟩
    intro a hal hae
    obtain ⟨p, hp, rfl⟩ := List.mem_map.mp hal
    have hpe : p.1.id = e.1.id := by simpa using hae
    exact ha (List.any_eq_true.mpr ⟨p, hp, by simp [hpe]⟩)

theorem nodup_ids_ftsPhase (ftsRows : List (Memory × ℚ)) (query : String)
    (limit : Nat) :
    ((ftsPhase ftsRows query limit).map (fun p => p.1.id)).Nodup := by
  unfold ftsPhase
  by_cases he : (extractIdentTokens query.data).isEmpty
  · simp [he]
  · rw [if_neg (by simpa using he)]
    generalize (ftsRows.take (limit * 2)) = rows
    have main : ∀ (rows : List (Memory × ℚ)) (acc : List (Memory × ℚ)),
        ((acc.map (fun p => p.1.id)).Nodup) →
        (((rows.foldl (fun acc r => mapSetEntry acc (r.1, |r.2|)) acc).map
          (fun p => p.1.id)).Nodup) := by
      intro rows
      induction rows with
      | nil => intro acc h; exact h
      | cons r rs ih =>
        intro acc h
        exact ih _ (nodup_ids_mapSetEntry acc (r.1, |r.2|) h)
    exact main rows [] (by simp)

/-- The CJK n-gram path only appends rows with fresh ids; it never touches
an existing entry. -/
theorem cjkPhase_extends (db : DB) (query : String) (limit : Nat)
    (acc : List (Memory × ℚ)) :
    ∃ extra, cjkPhase db query limit acc = acc ++ extra ∧
      ∀ e ∈ extra, ∀ a ∈ acc, e.1.id ≠ a.1.id := by
  unfold cjkPhase
  by_cases hng : (filteredNgramsOf query).isEmpty
  · rw [if_pos hng]
    exact ⟨[], by simp, by simp⟩
  · rw [if_neg hng]
    generalize ((db.memories.filter _).take (limit * 2)) = rows
    generalize hfn : filteredNgramsOf query = ngrams
    have main : ∀ (rows : List Memory) (acc0 : List (Memory × ℚ)),
        ∃ extra, rows.foldl (fun acc r =>
            if acc.any (fun p => p.1.id = r.id) then acc
            else acc ++ [(r, ngramMatchScore ngrams r)]) acc0 = acc0 ++ extra ∧
          ∀ e ∈ extra, ∀ a ∈ acc0, e.1.id ≠ a.1.id := by
      intro rows
      induction rows with
      | nil => exact fun acc0 => ⟨[], by simp, by simp⟩
      | cons r rs ih =>
        intro acc0
        by_cases hg : acc0.any (fun p => p.1.id = r.id)
        · rw [List.foldl_cons, if_pos hg]
          exact ih acc0
        · rw [List.foldl_cons, if_neg hg]
          obtain ⟨extra, he, hids⟩ := ih (acc0 ++ [(r, ngramMatchScore ngrams r)])
          refine ⟨(r, ngramMatchScore ngrams r) :: extra, by rw [he]; simp, ?_⟩
          intro e hee a ha
          rcases List.mem_cons.mp hee with rfl | hee
          · intro hcon
            exact hg (List.any_eq_true.mpr ⟨a, ha, by simp [hcon.symm]⟩)
          · exact hids e hee a (List.mem_append.mpr (Or.inl ha))
    exact main rows acc

theorem fallbackPhase_of_ne_nil (db : DB) (query : String) (limit : Nat)
    (acc : List (Memory × ℚ)) (h : acc ≠ []) :
    fallbackPhase db query limit acc = acc := by
  unfold fallbackPhase
  rw [if_neg]
  intro hcon
  exact h (List.isEmpty_iff.mp hcon.1)

/-- Every returned row of `quickSearch` comes from the merged map. -/
theorem quickSearch_mem (ftsRows : List (Memory × ℚ)) (db : DB) (query : String)
    (limit : Nat) (dom : Option String) (r : QSResult)
    (hr : r ∈ quickSearch ftsRows db query limit dom) :
    ∃ q ∈ fallbackPhase db query limit
      (cjkPhase db query limit (ftsPhase ftsRows query limit)), toQSResult q = r := by
  unfold quickSearch at hr
  obtain ⟨q, hq, rfl⟩ := List.mem_map.mp hr
  have hq2 := List.mem_of_mem_take hq
  have hq3 := (mem_sortByDesc _ _ q).mp hq2
  exact ⟨q, (List.mem_filter.mp hq3).1, rfl⟩

/-- C3 counterexample: the record with id 1 is hit by the phrase path (score
1 after `Math.abs`) and by the CJK path (3 matched n-grams, claim-score
1.5), but `quickSearch` returns the phrase score 1, not the maximum 1.5. -/
theorem C3_counterexample :
    ((quickSearch [(cexMem, -1)] cexDb "foo 数据库" 5 none).map
      (fun r => (r.id, r.bm25Score)) = [(1, 1)]) ∧
    ngramMatchScore (filteredNgramsOf "foo 数据库") cexMem = 3/2 ∧
    (1 : ℚ) ≠ max 1 (3/2) := by
  refine ⟨by decide, ?_, by norm_num⟩
  have h : ((filteredNgramsOf "foo 数据库").filter (fun ng =>
      strHasSub (cexMem.content ++ " " ++ cexMem.structured_content.getD "") ng)).length
      = 3 := by decide
  simp only [ngramMatchScore]
  rw [h]
  norm_num

/-- C3 (amended): when the same record is hit by both the phrase path and
the CJK n-gram path, the merged map keeps the phrase-path score — the CJK
path only adds records whose id is not yet present — so the returned `bm25`
score is the phrase-path score, not the maximum of the two. -/
theorem C3_amended_first_score_kept (ftsRows : List (Memory × ℚ)) (db : DB)
    (query : String) (limit : Nat) (dom : Option String) (r : QSResult)
    (hr : r ∈ quickSearch ftsRows db query limit dom)
    (p : Memory × ℚ) (hp : p ∈ ftsPhase ftsRows query limit)
    (hid : p.1.id = r.id) : r.bm25Score = p.2 := by
  obtain ⟨extra, hcjk, hfresh⟩ :=
    cjkPhase_extends db query limit (ftsPhase ftsRows query limit)
  have hfts_ne : ftsPhase ftsRows query limit ≠ [] := by
    intro hcon
    rw [hcon] at hp
    cases hp
  have hmerged_ne : cjkPhase db query limit (ftsPhase ftsRows query limit) ≠ [] := by
    rw [hcjk]
    intro hcon
    exact hfts_ne (List.append_eq_nil.mp hcon).1
  obtain ⟨q, hq, hqr⟩ := quickSearch_mem ftsRows db query limit dom r hr
  rw [fallbackPhase_of_ne_nil db query limit _ hmerged_ne, hcjk] at hq
  have hqid : q.1.id = r.id := by rw [← hqr]; rfl
  rcases List.mem_append.mp hq with hq' | hq'
  · have : q = p := List.inj_on_of_nodup_map
      (nodup_ids_ftsPhase ftsRows query limit) hq' hp (by rw [hqid, hid])
    rw [← hqr, this]
    rfl
  · exact absurd (hqid.trans hid.symm) (hfresh q hq' p hp)

theorem C3_witness : cexRow.bm25Score = (cexMem, (1 : ℚ)).2 :=
  C3_amended_first_score_kept [(cexMem, -1)] cexDb "foo 数据库" 5 none cexRow
    (by decide) (cexMem, 1) (by decide) (by decide)

/-! ## C7: the `search` contract -/

theorem mem_srowSet (acc : List SRow) (x y : SRow) (hy : y ∈ srowSet acc x) :
    y = x ∨ y ∈ acc := by
  unfold srowSet at hy
  by_cases h : acc.any (fun p => p.id = x.id)
  · rw [if_pos h] at hy
    obtain ⟨p, hp, rfl⟩ := List.mem_map.mp hy
    by_cases h2 : p.id = x.id
    · rw [if_pos h2]
      exact Or.inl rfl
    · rw [if_neg h2]
      exact Or.inr hp
  · rw [if_neg h] at hy
    rcases List.mem_append.mp hy with hy | hy
    · exact Or.inr hy
    · exact Or.inl (by simpa using hy)

theorem searchBase_inv (qs : List QSResult) :
    ∀ y ∈ searchBase qs, vecSimConsistent y := by
  have main : ∀ (qs : List QSResult) (acc : List SRow),
      (∀ y ∈ acc, vecSimConsistent y) →
      ∀ y ∈ qs.foldl (fun acc r => srowSet acc (srowOfQS r)) acc, vecSimConsistent y := by
    intro qs
    induction qs with
    | nil => intro acc h; exact h
    | cons r rs ih =>
      intro acc h
      apply ih
      intro y hy
      rcases mem_srowSet acc (srowOfQS r) y hy with rfl | hy
      · rfl
      · exact h y hy
  exact main qs [] (by simp)

theorem searchVecStep_inv (db : DB) (acc : List SRow) (h : Nat × ℚ)
    (hacc : ∀ y ∈ acc, vecSimConsistent y) :
    ∀ y ∈ searchVecStep db acc h, vecSimConsistent y := by
  intro y hy
  unfold searchVecStep at hy
  by_cases hg : acc.any (fun p => p.id = h.1)
  · rw [if_pos hg] at hy
    obtain ⟨p, hp, rfl⟩ := List.mem_map.mp hy
    by_cases h2 : p.id = h.1
    · rw [if_pos h2]
      rfl
    · rw [if_neg h2]
      exact hacc p hp
  · rw [if_neg hg] at hy
    cases hf : db.memories.find? (fun m => m.id = h.1) with
    | none =>
      rw [hf] at hy
      exact hacc y hy
    | some m =>
      rw [hf] at hy
      rcases List.mem_append.mp hy with hy | hy
      · exact hacc y hy
      · rw [List.mem_singleton.mp hy]
        rfl

theorem searchWithVec_inv (db : DB) (vecHits : Option (List (Nat × ℚ)))
    (limit : Nat) (base : List SRow) (hbase : ∀ y ∈ base, vecSimConsistent y) :
    ∀ y ∈ searchWithVec db vecHits limit base, vecSimConsistent y := by
  cases vecHits with
  | none => exact hbase
  | some hits =>
    have main : ∀ (rows : List (Nat × ℚ)) (acc : List SRow),
        (∀ y ∈ acc, vecSimConsistent y) →
        ∀ y ∈ rows.foldl (searchVecStep db) acc, vecSimConsistent y := by
      intro rows
      induction rows with
      | nil => intro acc h; exact h
      | cons hh hs ih =>
        intro acc h
        exact ih _ (searchVecStep_inv db acc hh h)
    exact main _ base hbase

/-- C7: for every query and every k, `search` returns at most k rows, every
returned row's combined score is `0.7 · vec_sim + 0.3 · min(bm25/10, 1)`
with `vec_sim = 1 − distance` (0 without a vector hit), every returned row
passes the min-confidence / type / domain filters, and the rows are sorted
by non-increasing combined score. -/
theorem C7_search_contract (ftsRows : List (Memory × ℚ))
    (vecHits : Option (List (Nat × ℚ))) (db : DB) (query : String)
    (limit : Nat) (opts : SearchOptions) :
    (search ftsRows vecHits db query limit opts).length ≤ limit ∧
    (search ftsRows vecHits db query limit opts).Forall (searchRowOk opts) ∧
    (search ftsRows vecHits db query limit opts).Sorted
      (fun a b => b.combinedScore ≤ a.combinedScore) := by
  refine ⟨List.length_take_le _ _, ?_, ?_⟩
  · rw [List.forall_iff_forall_mem]
    intro r hr
    have hr1 := (mem_sortByDesc _ _ r).mp (List.mem_of_mem_take hr)
    obtain ⟨x, hx, rfl⟩ := List.mem_map.mp hr1
    obtain ⟨hx1, hdom⟩ := List.mem_filter.mp hx
    obtain ⟨hx2, htype⟩ := List.mem_filter.mp hx1
    obtain ⟨hx3, hconf⟩ := List.mem_filter.mp hx2
    have hinv : vecSimConsistent x :=
      searchWithVec_inv db vecHits limit _ (searchBase_inv _) x hx3
    refine ⟨rfl, hinv, ?_, htype, hdom⟩
    exact of_decide_eq_true hconf
  · exact List.Pairwise.sublist (List.take_sublist _ _) (sorted_sortByDesc _ _)

/-- C6: `merge_cluster(c)` on a mature cluster with at least two members:
the call reports the fresh record id and the member count; no surviving
Record has `cluster_id = c`; exactly one Record with a fresh id exists — the
aggregate, with `source = "cluster-merge"`, confidence 0.9 on the LLM path
and 0.85 on the concatenation fallback whose content joins the member texts
with `"\n---\n"`; the cluster ends with `status = "merged"` and `evolved_at`
set; and the aggregate is inserted — with the members still present — before
the members and their vector entries are deleted. -/
theorem C6_merge_cluster (merged : Option MergedContent) (emb : Option Vec)
    (vf : Bool) (db : DB) (cid : Nat) (cluster : Cluster)
    (hfind : db.clusters.find? (fun c => c.id = cid) = some cluster)
    (hmature : cluster.status = "mature")
    (hmem2 : 2 ≤ (clusterMembers db cid).length)
    (hids : ∀ m ∈ db.memories, m.id < db.nextMemId) :
    (∃ s, (mergeClusterMemories merged emb vf db cid).2 =
      some { memoryId := db.nextMemId, summary := s,
             memberCount := (clusterMembers db cid).length }) ∧
    (∀ m ∈ (mergeClusterMemories merged emb vf db cid).1.memories,
      m.cluster_id ≠ some cid) ∧
    (∃ newRec,
      (mergeClusterMemories merged emb vf db cid).1.memories.filter
        (fun m => db.nextMemId ≤ m.id) = [newRec] ∧
      newRec.source = some "cluster-merge" ∧
      newRec.confidence = (if merged.isSome then 9/10 else 17/20) ∧
      (merged = none → newRec.content = String.intercalate "\n---\n"
        ((clusterMembers db cid).map (fun m => m.structured_content.getD m.content)))) ∧
    (∀ c' ∈ (mergeClusterMemories merged emb vf db cid).1.clusters, c'.id = cid →
      c'.status = "merged" ∧ c'.evolved_at = some (db.now + 1)) ∧
    (∀ m ∈ clusterMembers db cid,
      ∀ p ∈ (mergeClusterMemories merged emb vf db cid).1.vecs, p.1 ≠ m.id) ∧
    ((mergeClusterMemories merged emb vf db cid).1 =
      mergeDeletePhase
        (mergeInsertPhase merged emb vf { db with now := db.now + 1 } cid cluster
          (clusterMembers db cid)).1 cid (clusterMembers db cid) ∧
      (∀ m ∈ clusterMembers db cid,
        m ∈ (mergeInsertPhase merged emb vf { db with now := db.now + 1 } cid cluster
          (clusterMembers db cid)).1.memories) ∧
      (∃ mm ∈ (mergeInsertPhase merged emb vf { db with now := db.now + 1 } cid cluster
          (clusterMembers db cid)).1.memories,
        mm.id = db.nextMemId ∧ mm.source = some "cluster-merge")) := by
  have hmem_sub : ∀ m ∈ clusterMembers db cid, m ∈ db.memories := by
    intro m hm
    exact (List.mem_filter.mp ((mem_sortByDesc _ _ m).mp hm)).1
  have hmem_ids : ∀ m ∈ clusterMembers db cid, m.id < db.nextMemId :=
    fun m hm => hids m (hmem_sub m hm)
  have hfind0 : ({ db with now := db.now + 1 } : DB).clusters.find?
      (fun c => c.id = cid) = some cluster := hfind
  have hg : mergeGuards { db with now := db.now + 1 } cid =
      some (cluster, clusterMembers db cid) := by
    unfold mergeGuards
    rw [hfind0]
    show (if cluster.status ≠ "mature" then none
      else if (clusterMembers { db with now := db.now + 1 } cid).length < 2 then none
      else some (cluster, clusterMembers { db with now := db.now + 1 } cid)) = _
    have h1 : ¬(cluster.status ≠ "mature") := by simp [hmature]
    have hlt : ¬((clusterMembers { db with now := db.now + 1 } cid).length < 2) :=
      Nat.not_lt.mpr hmem2
    rw [if_neg h1, if_neg hlt]
    rfl
  have hr : mergeClusterMemories merged emb vf db cid =
      (mergeDeletePhase
        (mergeInsertPhase merged emb vf { db with now := db.now + 1 } cid cluster
          (clusterMembers db cid)).1 cid (clusterMembers db cid),
       some { memoryId := (mergeInsertPhase merged emb vf { db with now := db.now + 1 }
                cid cluster (clusterMembers db cid)).2.1
              summary := (mergeInsertPhase merged emb vf { db with now := db.now + 1 }
                cid cluster (clusterMembers db cid)).2.2
              memberCount := (clusterMembers db cid).length }) := by
    simp only [mergeClusterMemories, hg]
  obtain ⟨hins1, hins2, hins3, newRec, hmem, hid, hsrc, hclnone, hconf, hcontent⟩ :=
    mergeInsertPhase_spec merged emb vf { db with now := db.now + 1 } cid cluster
      (clusterMembers db cid)
  obtain ⟨hd1, hd2, hd3, _⟩ := mergeDeletePhase_spec
    (mergeInsertPhase merged emb vf { db with now := db.now + 1 } cid cluster
      (clusterMembers db cid)).1 cid (clusterMembers db cid)
  have hrmem : (mergeClusterMemories merged emb vf db cid).1.memories =
      (({ db with now := db.now + 1 } : DB).memories ++ [newRec]).filter
        (fun mm => (clusterMembers db cid).all (fun m => mm.id ≠ m.id)) := by
    rw [hr]
    rw [hd1, hmem]
  have hnid : newRec.id = db.nextMemId := hid
  refine ⟨?_, ?_, ?_, ?_, ?_, ?_⟩
  · exact ⟨_, by rw [hr, hins1]⟩
  · intro m hm
    rw [hrmem] at hm
    obtain ⟨hm', hall⟩ := List.mem_filter.mp hm
    rcases List.mem_append.mp hm' with hm'' | hm''
    · intro hcl
      have hmm : m ∈ clusterMembers db cid := by
        apply (mem_sortByDesc _ _ m).mpr
        exact List.mem_filter.mpr ⟨hm'', by simp [hcl]⟩
      have := List.all_eq_true.mp hall m hmm
      simp at this
    · have : m = newRec := by simpa using hm''
      rw [this, hclnone]
      simp
  · refine ⟨newRec, ?_, hsrc, hconf, hcontent⟩
    rw [hrmem, List.filter_filter, List.filter_append]
    have h1 : (({ db with now := db.now + 1 } : DB).memories).filter
        (fun a => decide (db.nextMemId ≤ a.id) &&
          (clusterMembers db cid).all (fun m => a.id ≠ m.id)) = [] := by
      apply List.filter_eq_nil_iff.mpr
      intro a ha
      have : a.id < db.nextMemId := hids a ha
      simp [Nat.not_le.mpr this]
    have h2 : ([newRec] : List Memory).filter
        (fun a => decide (db.nextMemId ≤ a.id) &&
          (clusterMembers db cid).all (fun m => a.id ≠ m.id)) = [newRec] := by
      have hq : db.nextMemId ≤ newRec.id := by rw [hnid]
      have hall : (clusterMembers db cid).all (fun m => newRec.id ≠ m.id) = true := by
        apply List.all_eq_true.mpr
        intro m hm
        have hlt := hmem_ids m hm
        show decide (newRec.id ≠ m.id) = true
        rw [hnid]
        exact decide_eq_true (Ne.symm (ne_of_lt hlt))
      have hpred : (decide (db.nextMemId ≤ newRec.id) &&
          (clusterMembers db cid).all (fun m => newRec.id ≠ m.id)) = true := by
        rw [Bool.and_eq_true]
        exact ⟨decide_eq_true hq, hall⟩
      rw [List.filter_cons, if_pos hpred, List.filter_nil]
    rw [h1, h2]
    rfl
  · intro c' hc' hcid
    have hcl : (mergeClusterMemories merged emb vf db cid).1.clusters =
        ({ db with now := db.now + 1 } : DB).clusters.map (fun c =>
          if c.id = cid then
            { c with status := "merged"
                     evolved_at := some (mergeInsertPhase merged emb vf
                       { db with now := db.now + 1 } cid cluster
                       (clusterMembers db cid)).1.now }
          else c) := by
      rw [hr, hd3, hins3]
    rw [hcl] at hc'
    obtain ⟨c, _hc, rfl⟩ := List.mem_map.mp hc'
    by_cases h : c.id = cid
    · rw [if_pos h]
      rw [if_pos h] at hcid
      exact ⟨rfl, by rw [hins2]⟩
    · rw [if_neg h] at hcid ⊢
      exact absurd hcid h
  · intro m hm p hp
    rw [hr, hd2] at hp
    obtain ⟨_, hall⟩ := List.mem_filter.mp hp
    have := List.all_eq_true.mp hall m hm
    simpa using this
  · refine ⟨by rw [hr], ?_, ⟨newRec, ?_, hnid, hsrc⟩⟩
    · intro m hm
      rw [hmem]
      exact List.mem_append.mpr (Or.inl (hmem_sub m hm))
    · rw [hmem]
      simp

theorem C6_witness :
    (∃ s, (mergeClusterMemories none none false mDb 7).2 =
      some { memoryId := mDb.nextMemId, summary := s,
             memberCount := (clusterMembers mDb 7).length }) ∧
    (∀ c' ∈ (mergeClusterMemories none none false mDb 7).1.clusters, c'.id = 7 →
      c'.status = "merged" ∧ c'.evolved_at = some (mDb.now + 1)) := by
  have h := C6_merge_cluster none none false mDb 7 mClus rfl rfl
    (by rw [clusterMembers, length_sortByDesc]; decide) (by decide)
  exact ⟨h.1, h.2.2.2.1⟩

/-! ## C9: the online join updates only the listed fields -/

/-- C9: a successful `try_join_cluster(id, v, domain, conf)` updates only the
record's `cluster_id` and the host cluster's `member_count`,
`avg_confidence`, `status` and `updated_at`; every cluster's centroid vector
— host included — is unchanged, as are the vector table, the id counters,
every other record, and every other cluster. -/
theorem C9_join_updates_only_listed_fields (simFn : Vec → Vec → ℚ) (db : DB)
    (mid : Nat) (v : Vec) (dom : String) (conf : ℚ) (jr : JoinResult)
    (hjr : (tryJoinCluster simFn db mid v dom conf).2 = some jr) :
    (tryJoinCluster simFn db mid v dom conf).1.vecs = db.vecs ∧
    (tryJoinCluster simFn db mid v dom conf).1.nextMemId = db.nextMemId ∧
    (tryJoinCluster simFn db mid v dom conf).1.nextClusterId = db.nextClusterId ∧
    List.Forall₂ (joinMemRel mid) db.memories
      (tryJoinCluster simFn db mid v dom conf).1.memories ∧
    List.Forall₂ (joinClusterRel jr.clusterId) db.clusters
      (tryJoinCluster simFn db mid v dom conf).1.clusters ∧
    List.Forall₂ (fun c c' => c'.centroid_vector = c.centroid_vector) db.clusters
      (tryJoinCluster simFn db mid v dom conf).1.clusters := by
  obtain ⟨h1, h2, h3, _h4, h5, h6, _h7⟩ := tryJoinCluster_frame simFn db mid v dom conf
  have hc := h6 jr hjr
  exact ⟨h1, h2, h3, h5, hc, hc.imp (fun _ _ hr => hr.2.2.2.1)⟩

theorem jDb_join_succeeds :
    (tryJoinCluster (fun _ _ => 1) jDb 1 [1] "general" (1/2)).2 =
      some { clusterId := 7, theme := "t", similarity := 1 } := by
  norm_num [tryJoinCluster, pickBestCluster, jDb, jClus,
    CLUSTER_SIMILARITY_THRESHOLD]

theorem C9_witness :
    (tryJoinCluster (fun _ _ => 1) jDb 1 [1] "general" (1/2)).2 =
      some { clusterId := 7, theme := "t", similarity := 1 } ∧
    List.Forall₂ (fun c c' => c'.centroid_vector = c.centroid_vector)
      jDb.clusters (tryJoinCluster (fun _ _ => 1) jDb 1 [1] "general" (1/2)).1.clusters :=
  ⟨jDb_join_succeeds,
   (C9_join_updates_only_listed_fields (fun _ _ => 1) jDb 1 [1] "general" (1/2)
      { clusterId := 7, theme := "t", similarity := 1 } jDb_join_succeeds).2.2.2.2.2⟩

/-! ## C10: merge guards -/

/-- C10: `merge_cluster` on a missing cluster, a non-`mature` cluster, or a
cluster with fewer than two members returns `null` and leaves the store
untouched. -/
theorem C10_merge_guards_noop (merged : Option MergedContent) (emb : Option Vec)
    (vf : Bool) (db : DB) (cid : Nat)
    (h : db.clusters.find? (fun c => c.id = cid) = none ∨
         (∃ c, db.clusters.find? (fun c => c.id = cid) = some c ∧ c.status ≠ "mature") ∨
         (clusterMembers db cid).length < 2) :
    mergeClusterMemories merged emb vf db cid = (db, none) := by
  have hcl : ({ db with now := db.now + 1 } : DB).clusters = db.clusters := rfl
  have hmm : clusterMembers { db with now := db.now + 1 } cid = clusterMembers db cid := rfl
  have hg : mergeGuards { db with now := db.now + 1 } cid = none := by
    unfold mergeGuards
    rw [hcl]
    rcases h with hnone | ⟨c, hc, hst⟩ | hlen
    · rw [hnone]
    · rw [hc]
      simp [hst]
    · cases hfind : db.clusters.find? (fun c => c.id = cid) with
      | none => rfl
      | some c =>
        by_cases hst : c.status ≠ "mature"
        · simp [hst]
        · have hlen2 : (clusterMembers { db with now := db.now + 1 } cid).length < 2 := by
            rw [hmm]
            exact hlen
          simp [hst, hlen2]
  simp only [mergeClusterMemories, hg]

theorem C10_witness : mergeClusterMemories none none false wDb 1 = (wDb, none) :=
  C10_merge_guards_noop none none false wDb 1 (Or.inl (by decide))

/-! ## C5: validate -/

theorem find?_map_of_id (f : Memory → Memory) (hf : ∀ m, (f m).id = m.id)
    (l : List Memory) (i : Nat) :
    (l.map f).find? (fun m => m.id = i) = (l.find? (fun m => m.id = i)).map f := by
  rw [List.find?_map]
  have hcomp : ((fun m : Memory => decide (m.id = i)) ∘ f) =
      fun m : Memory => decide (m.id = i) := by
    funext m
    simp [Function.comp, hf]
  simp only [hcomp]

/-- Effect of one `validateMemory` call on the targeted record. -/
theorem findMem_validate (db : DB) (i : Nat) (bv : Bool) (m : Memory)
    (hfind : findMem db i = some m) :
    findMem (validateMemory db i bv) i =
      some { m with
        confidence := max (3/10) (min (9/10) (m.confidence + (if bv then 1/10 else -(1/20))))
        evidence_count := m.evidence_count + 1
        updated_at := db.now + 1 } := by
  have hid : m.id = i := by simpa using List.find?_some hfind
  have h1 : (validateMemory db i bv).memories = db.memories.map (fun m =>
      if m.id = i then
        { m with
          confidence := max (3/10) (min (9/10) (m.confidence + (if bv then 1/10 else -(1/20))))
          evidence_count := m.evidence_count + 1
          updated_at := db.now + 1 }
      else m) := rfl
  show (validateMemory db i bv).memories.find? (fun m => m.id = i) = _
  rw [h1, find?_map_of_id _ (fun m => by by_cases h : m.id = i <;> simp [h])]
  show (findMem db i).map _ = _
  rw [hfind]
  simp [hid]

theorem clamp_up_down (c : ℚ) (h1 : 3/10 ≤ c) (h2 : c + 1/10 ≤ 9/10) :
    max (3/10) (min (9/10) (max (3/10) (min (9/10) (c + 1/10)) + -(1/20))) = c + 1/20 := by
  have e1 : min (9/10 : ℚ) (c + 1/10) = c + 1/10 := min_eq_right h2
  have e2 : max (3/10 : ℚ) (c + 1/10) = c + 1/10 := max_eq_right (by linarith)
  rw [e1, e2]
  have e3 : min (9/10 : ℚ) (c + 1/10 + -(1/20)) = c + 1/10 + -(1/20) :=
    min_eq_right (by linarith)
  have e4 : max (3/10 : ℚ) (c + 1/10 + -(1/20)) = c + 1/10 + -(1/20) :=
    max_eq_right (by linarith)
  rw [e3, e4]
  ring

/-- C5: `validate(id, is_valid)` sets `confidence` to
`clamp(confidence + (is_valid ? +0.1 : −0.05), 0.3, 0.9)` and increments
`evidence_count` by exactly 1; `validate(id,true)` then `validate(id,false)`
adds 2 to `evidence_count` and, when no clamp binds, exactly `+0.05` to the
confidence. -/
theorem C5_validate_updates (db : DB) (i : Nat) (m : Memory) (bv : Bool)
    (hfind : findMem db i = some m) :
    (findMem (validateMemory db i bv) i =
      some { m with
        confidence := max (3/10) (min (9/10) (m.confidence + (if bv then 1/10 else -(1/20))))
        evidence_count := m.evidence_count + 1
        updated_at := db.now + 1 }) ∧
    (∃ m2, findMem (validateMemory (validateMemory db i true) i false) i = some m2 ∧
      m2.evidence_count = m.evidence_count + 2 ∧
      m2.confidence =
        max (3/10) (min (9/10)
          (max (3/10) (min (9/10) (m.confidence + 1/10)) + -(1/20))) ∧
      (3/10 ≤ m.confidence → m.confidence + 1/10 ≤ 9/10 →
        m2.confidence = m.confidence + 1/20)) := by
  refine ⟨findMem_validate db i bv m hfind, ?_⟩
  have hstep1 := findMem_validate db i true m hfind
  have hstep2 := findMem_validate (validateMemory db i true) i false _ hstep1
  refine ⟨_, hstep2, by simp, by simp, ?_⟩
  intro hlo hhi
  simp only
  exact clamp_up_down m.confidence hlo hhi

theorem C5_witness :
    ((findMem (validateMemory wDb 1 true) 1).map
      (fun m => (m.confidence, m.evidence_count)) = some (7/10, 1)) ∧
    ((findMem (validateMemory (validateMemory wDb 1 true) 1 false) 1).map
      (fun m => (m.confidence, m.evidence_count)) = some (13/20, 2)) := by
  have h := C5_validate_updates wDb 1 wMem true (by rfl)
  constructor
  · rw [h.1]
    norm_num [wMem, wDb]
  · obtain ⟨m2, hm2, hev, _hconf, hnc⟩ := h.2
    rw [hm2]
    have hc : m2.confidence = 13/20 := by
      rw [hnc (by norm_num [wMem]) (by norm_num [wMem])]
      norm_num [wMem]
    have he : m2.evidence_count = 2 := by
      rw [hev]
      norm_num [wMem]
    simp [hc, he]

/-! ## C8: time decay -/

/-- C8: `calcTimeDecay` matches
`max(min_weight[type], 0.5 ^ (age_days / half_life[type]))` for every type
with a finite half-life in the table; `skill` and `permanent` decay to 1 at
every age; a `context` record has decay 1 at age 0 and 1/2 at age 30 days;
types absent from the table use the `context` parameters. -/
theorem C8_time_decay_formula :
    (∀ (created nowMs : ℝ) (t : String) (p : DecayParams) (hl : ℚ),
        TIME_DECAY_CONFIG t = some p → p.halfLifeDays = some hl →
        calcTimeDecay (some created) nowMs t =
          max ((p.minWeight : ℝ))
            ((1 / 2 : ℝ) ^ (((nowMs - created) / (1000 * 60 * 60 * 24)) / (hl : ℝ)))) ∧
    (∀ created nowMs, calcTimeDecay (some created) nowMs "skill" = 1) ∧
    (∀ created nowMs, calcTimeDecay (some created) nowMs "permanent" = 1) ∧
    (∀ nowMs, calcTimeDecay (some nowMs) nowMs "context" = 1) ∧
    (∀ created nowMs, nowMs - created = 30 * (1000 * 60 * 60 * 24) →
        calcTimeDecay (some created) nowMs "context" = 1/2) ∧
    (∀ t, TIME_DECAY_CONFIG t = none →
        ∀ c nowMs, calcTimeDecay c nowMs t = calcTimeDecay c nowMs "context") := by
  have hctx : TIME_DECAY_CONFIG "context" = some contextDecayParams := rfl
  refine ⟨?_, ?_, ?_, ?_, ?_, ?_⟩
  · intro created nowMs t p hl hp hhl
    simp only [calcTimeDecay, hp, Option.getD_some, hhl]
    exact max_comm _ _
  · intro created nowMs
    rfl
  · intro created nowMs
    rfl
  · intro nowMs
    simp only [calcTimeDecay, hctx, Option.getD_some, contextDecayParams]
    rw [sub_self, zero_div, zero_div, Real.rpow_zero]
    norm_num
  · intro created nowMs hage
    simp only [calcTimeDecay, hctx, Option.getD_some, contextDecayParams]
    rw [hage]
    norm_num
  · intro t ht c nowMs
    cases c with
    | none => rfl
    | some created =>
      simp only [calcTimeDecay, ht, hctx, Option.getD_none, Option.getD_some]

theorem C8_witness :
    calcTimeDecay (some 0) (30 * (1000 * 60 * 60 * 24)) "context" = 1/2 ∧
    calcTimeDecay (some 5) 12345 "skill" = 1 :=
  ⟨C8_time_decay_formula.2.2.2.2.1 0 (30 * (1000 * 60 * 60 * 24)) (by simp),
   C8_time_decay_formula.2.1 5 12345⟩

/-! ## C4: the dedup path of `save` -/

theorem foldl_dedup_mem (l : List String) : ∀ (acc : List String) (x : String),
    x ∈ l.foldl (fun acc w => if acc.contains w then acc else acc ++ [w]) acc ↔
      x ∈ acc ∨ x ∈ l := by
  induction l with
  | nil => simp
  | cons w ws ih =>
    intro acc x
    rw [List.foldl_cons]
    by_cases h : acc.contains w = true
    · rw [if_pos h, ih]
      have hw : w ∈ acc := by simpa using h
      constructor
      · rintro (hx | hx)
        · exact Or.inl hx
        · exact Or.inr (List.mem_cons_of_mem _ hx)
      · rintro (hx | hx)
        · exact Or.inl hx
        · rcases List.mem_cons.mp hx with rfl | hx
          · exact Or.inl hw
          · exact Or.inr hx
    · rw [if_neg h, ih]
      simp only [List.mem_append, List.mem_singleton, List.mem_cons]
      tauto

theorem mem_dedupKeepFirst (l : List String) (x : String) :
    x ∈ dedupKeepFirst l ↔ x ∈ l := by
  rw [dedupKeepFirst, foldl_dedup_mem]
  simp

theorem nodup_foldl_dedup (l : List String) : ∀ (acc : List String),
    acc.Nodup →
    (l.foldl (fun acc w => if acc.contains w then acc else acc ++ [w]) acc).Nodup := by
  induction l with
  | nil => exact fun _ h => h
  | cons w ws ih =>
    intro acc hacc
    rw [List.foldl_cons]
    by_cases h : acc.contains w = true
    · rw [if_pos h]
      exact ih acc hacc
    · rw [if_neg h]
      refine ih _ ?_
      have hw : w ∉ acc := by simpa using h
      refine List.Nodup.append hacc (List.nodup_singleton w) ?_
      intro a ha hb
      rw [List.mem_singleton] at hb
      rw [hb] at ha
      exact hw ha

theorem nodup_dedupKeepFirst (l : List String) : (dedupKeepFirst l).Nodup :=
  nodup_foldl_dedup l [] List.nodup_nil

theorem foldl_dedup_of_subset (l : List String) : ∀ (acc : List String),
    (∀ x ∈ l, x ∈ acc) →
    l.foldl (fun acc w => if acc.contains w then acc else acc ++ [w]) acc = acc := by
  induction l with
  | nil => exact fun _ _ => rfl
  | cons w ws ih =>
    intro acc hsub
    rw [List.foldl_cons]
    have hw : acc.contains w = true := by
      have hmem := hsub w (by simp)
      simpa using hmem
    rw [if_pos hw]
    exact ih acc (fun x hx => hsub x (by simp [hx]))

theorem foldl_dedup_of_fresh (l : List String) : ∀ (acc : List String),
    (∀ x ∈ l, ¬ x ∈ acc) → l.Nodup →
    l.foldl (fun acc w => if acc.contains w then acc else acc ++ [w]) acc = acc ++ l := by
  induction l with
  | nil => intro acc _ _; simp
  | cons w ws ih =>
    intro acc hfresh hnd
    rw [List.foldl_cons]
    have hw : ¬ acc.contains w = true := by
      simpa using hfresh w (by simp)
    rw [if_neg hw]
    have hfresh2 : ∀ x ∈ ws, ¬ x ∈ acc ++ [w] := by
      intro x hx hmem
      rcases List.mem_append.mp hmem with h1 | h1
      · exact hfresh x (List.mem_cons_of_mem _ hx) h1
      · rw [List.mem_singleton] at h1
        rw [h1] at hx
        exact (List.nodup_cons.mp hnd).1 hx
    have hrec := ih (acc ++ [w]) hfresh2 (List.nodup_cons.mp hnd).2
    rw [hrec, List.append_assoc, List.singleton_append]

theorem dedupKeepFirst_of_nodup (l : List String) (h : l.Nodup) :
    dedupKeepFirst l = l := by
  have hfold := foldl_dedup_of_fresh l [] (by simp) h
  simpa [dedupKeepFirst] using hfold

theorem dedupKeepFirst_append_self (l : List String) :
    dedupKeepFirst (l ++ l) = dedupKeepFirst l := by
  rw [dedupKeepFirst, List.foldl_append]
  exact foldl_dedup_of_subset l (dedupKeepFirst l)
    (fun x hx => (mem_dedupKeepFirst l x).mpr hx)

theorem jsSplitWsChars_ne_nil (l : List Char) : ∀ (cur : String) (b : Bool),
    jsSplitWsChars l cur b ≠ [] := by
  induction l with
  | nil => intro cur b; simp [jsSplitWsChars]
  | cons c cs ih =>
    intro cur b
    simp only [jsSplitWsChars]
    by_cases h : jsIsWsChar c = true
    · rw [if_pos h]
      cases b with
      | true => simpa using ih cur true
      | false => simp
    · rw [if_neg h]
      exact ih _ false

theorem dedupKeepFirst_ne_nil (l : List String) (h : l ≠ []) :
    dedupKeepFirst l ≠ [] := by
  cases l with
  | nil => exact absurd rfl h
  | cons w ws =>
    intro hcon
    have hw : w ∈ dedupKeepFirst (w :: ws) := (mem_dedupKeepFirst _ _).mpr (by simp)
    rw [hcon] at hw
    cases hw

/-- Word-level Jaccard similarity of a text with itself is exactly 1. -/
theorem textSimilarity_self (a : String) : textSimilarity a a = 1 := by
  have hW : dedupKeepFirst (jsSplitWs (asciiLower a)) ≠ [] :=
    dedupKeepFirst_ne_nil _ (jsSplitWsChars_ne_nil _ _ _)
  have hfilter : (dedupKeepFirst (jsSplitWs (asciiLower a))).filter
      (fun w => (dedupKeepFirst (jsSplitWs (asciiLower a))).contains w) =
      dedupKeepFirst (jsSplitWs (asciiLower a)) := by
    apply List.filter_eq_self.mpr
    intro w hw
    simpa using hw
  have huni : dedupKeepFirst (dedupKeepFirst (jsSplitWs (asciiLower a)) ++
      dedupKeepFirst (jsSplitWs (asciiLower a))) =
      dedupKeepFirst (jsSplitWs (asciiLower a)) := by
    rw [dedupKeepFirst_append_self]
    exact dedupKeepFirst_of_nodup _ (nodup_dedupKeepFirst _)
  show (((dedupKeepFirst (jsSplitWs (asciiLower a))).filter
      (fun w => (dedupKeepFirst (jsSplitWs (asciiLower a))).contains w)).length : ℚ) /
      ((dedupKeepFirst (dedupKeepFirst (jsSplitWs (asciiLower a)) ++
        dedupKeepFirst (jsSplitWs (asciiLower a)))).length : ℚ) = 1
  rw [hfilter, huni]
  have hlen : (dedupKeepFirst (jsSplitWs (asciiLower a))).length ≠ 0 :=
    fun h0 => hW (List.length_eq_zero.mp h0)
  have hlenq : ((dedupKeepFirst (jsSplitWs (asciiLower a))).length : ℚ) ≠ 0 := by
    exact_mod_cast hlen
  rw [div_self hlenq]

theorem forall₂_id_unique {R : Memory → Memory → Prop} {l l' : List Memory}
    (h : List.Forall₂ R l l') (hpres : ∀ a b, R a b → b.id = a.id) :
    (l.map (fun m => m.id)).Nodup →
    ∀ y₁ ∈ l', ∀ y₂ ∈ l', y₁.id = y₂.id → y₁ = y₂ := by
  induction h with
  | nil => intro _ y₁ hy₁; cases hy₁
  | cons hr htail ih =>
    intro hnd y₁ hy₁ y₂ hy₂ heq
    rw [List.map_cons, List.nodup_cons] at hnd
    rcases List.mem_cons.mp hy₁ with h1 | h1 <;>
      rcases List.mem_cons.mp hy₂ with h2 | h2
    · rw [h1, h2]
    · exfalso
      obtain ⟨x, hx, hrx⟩ := forall₂_mem_right htail y₂ h2
      apply hnd.1
      simp only [List.mem_map]
      refine ⟨x, hx, ?_⟩
      rw [← hpres _ _ hrx, ← heq, h1]
      exact hpres _ _ hr
    · exfalso
      obtain ⟨x, hx, hrx⟩ := forall₂_mem_right htail y₁ h1
      apply hnd.1
      simp only [List.mem_map]
      refine ⟨x, hx, ?_⟩
      rw [← hpres _ _ hrx, heq, h2]
      exact hpres _ _ hr
    · exact ih hnd.2 y₁ h1 y₂ h2 heq

/-- When a record `A` of the matching `(type, domain)` bucket has strictly
the greatest `created_at` in that bucket and similarity ≥ 0.95 with the new
content, `save` takes the dedup path on `A`. -/
theorem save_dedup_hit (stz : StructurizeOutcome) (emb : Option Vec) (vf : Bool)
    (simFn : Vec → Vec → ℚ) (db : DB) (content : String) (opts : SaveOptions)
    (A : Memory) (hA : A ∈ db.memories)
    (htype : A.type = opts.type) (hdom : A.domain = opts.domain)
    (hmax : ∀ y ∈ db.memories, y.type = opts.type → y.domain = opts.domain →
      y = A ∨ y.created_at < A.created_at)
    (hsim : (19 : ℚ)/20 ≤ textSimilarity content A.content) :
    (save stz emb vf simFn db content opts).2 =
      SaveResult.updated A.id (textSimilarity content A.content) ∧
    (save stz emb vf simFn db content opts).1.nextMemId = db.nextMemId ∧
    (save stz emb vf simFn db content opts).1.vecs = db.vecs ∧
    (save stz emb vf simFn db content opts).1.clusters = db.clusters ∧
    List.Forall₂ (dedupRel A.id (db.now + 1)) db.memories
      (save stz emb vf simFn db content opts).1.memories := by
  have hbucket : A ∈ db.memories.filter
      (fun m => m.type = opts.type && m.domain = opts.domain) := by
    rw [List.mem_filter]
    exact ⟨hA, by simp [htype, hdom]⟩
  have hmax' : ∀ y ∈ db.memories.filter
      (fun m => m.type = opts.type && m.domain = opts.domain),
      y = A ∨ (y.created_at : ℚ) < (A.created_at : ℚ) := by
    intro y hy
    rw [List.mem_filter] at hy
    have hcond := hy.2
    simp only [Bool.and_eq_true, decide_eq_true_eq] at hcond
    rcases hmax y hy.1 hcond.1 hcond.2 with hc | hc
    · exact Or.inl hc
    · exact Or.inr (by exact_mod_cast hc)
  obtain ⟨r, hr⟩ := sortByDesc_strict_max (fun m : Memory => (m.created_at : ℚ))
    (db.memories.filter (fun m => m.type = opts.type && m.domain = opts.domain))
    A hbucket hmax'
  have hrecent : recentByTypeDomain { db with now := db.now + 1 } opts.type opts.domain
      = A :: r.take 9 := by
    show (sortByDesc (fun m => (m.created_at : ℚ))
      (db.memories.filter (fun m => m.type = opts.type && m.domain = opts.domain))).take 10
      = A :: r.take 9
    rw [hr]
    rfl
  have hfd : findDup content (recentByTypeDomain { db with now := db.now + 1 }
      opts.type opts.domain) = some (A, textSimilarity content A.content) := by
    rw [hrecent]
    simp only [findDup]
    rw [if_pos hsim]
  refine ⟨?_, ?_, ?_, ?_, ?_⟩
  · simp only [save, hfd]
  · simp only [save, hfd]
  · simp only [save, hfd]
  · simp only [save, hfd]
  · have hmem : (save stz emb vf simFn db content opts).1.memories =
        db.memories.map (fun m =>
          if m.id = A.id then
            { m with
              last_accessed_at := some (db.now + 1)
              access_count := m.access_count + 1
              confidence := min (9/10) (m.confidence + 1/20) }
          else m) := by
      simp only [save, hfd]
    rw [hmem]
    apply forall₂_map_self
    intro m _
    constructor
    · intro hid
      rw [if_pos hid]
    · intro hid
      rw [if_neg hid]

/-- C4: saving text twice with the same `(type, domain)`, the second text
having word-level Jaccard similarity ≥ 0.95 to the first, creates no second
Record: on a well-formed store (distinct ids below `nextMemId`, creation
times at or before the clock) whose first call takes the created path, the
second call returns `{updated, id, similarity}` for the Record the first
call created, leaves the number of Records and `nextMemId` unchanged, and
that Record now has `access_count` incremented to 1 and
`confidence = min(0.9, confidence + 0.05)`. -/
theorem C4_dedup_second_save
    (stz₁ stz₂ : StructurizeOutcome) (emb₁ emb₂ : Option Vec) (vf₁ vf₂ : Bool)
    (sim₁ sim₂ : Vec → Vec → ℚ) (db : DB) (t₁ t₂ : String)
    (opts₁ opts₂ : SaveOptions)
    (hnd : (db.memories.map (fun m => m.id)).Nodup)
    (hclock : ∀ m ∈ db.memories, m.created_at ≤ db.now)
    (hids : ∀ m ∈ db.memories, m.id < db.nextMemId)
    (hdup : findDup t₁ (recentByTypeDomain { db with now := db.now + 1 }
        opts₁.type opts₁.domain) = none)
    (hrej : ((jsOrStrOpt opts₁.structuredContent).isNone && !opts₁.skipStructurize) = true →
        ∀ r, stz₁ ≠ .svcReject r)
    (htype : opts₂.type = opts₁.type) (hdom : opts₂.domain = opts₁.domain)
    (hsim : (19 : ℚ)/20 ≤ textSimilarity t₂ t₁) :
    ∀ db₁, (save stz₁ emb₁ vf₁ sim₁ db t₁ opts₁).1 = db₁ →
    (save stz₂ emb₂ vf₂ sim₂ db₁ t₂ opts₂).2 =
      SaveResult.updated db.nextMemId (textSimilarity t₂ t₁) ∧
    (save stz₂ emb₂ vf₂ sim₂ db₁ t₂ opts₂).1.memories.length =
      db₁.memories.length ∧
    (save stz₂ emb₂ vf₂ sim₂ db₁ t₂ opts₂).1.nextMemId = db.nextMemId + 1 ∧
    ∃ m ∈ (save stz₂ emb₂ vf₂ sim₂ db₁ t₂ opts₂).1.memories,
      m.id = db.nextMemId ∧ m.content = t₁ ∧ m.access_count = 1 ∧
      m.confidence = min (9/10) (opts₁.confidence + 1/20) := by
  intro db₁ hdb₁
  subst hdb₁
  obtain ⟨_hres, hnmi, _hnow, ⟨sc, h4⟩, _hvecs⟩ :=
    save_created_spec stz₁ emb₁ vf₁ sim₁ db t₁ opts₁ hdup hrej
  obtain ⟨A, hAmem, hArel⟩ := forall₂_mem_left h4
    (newMemOf { db with now := db.now + 1 } t₁ opts₁ (summaryOf t₁) (keywordsOf t₁) sc)
    (by simp)
  have hAid : A.id = db.nextMemId := by rw [hArel.1]; rfl
  have hAcontent : A.content = t₁ := by rw [hArel.1]; rfl
  have hAtype : A.type = opts₁.type := by rw [hArel.1]; rfl
  have hAdom : A.domain = opts₁.domain := by rw [hArel.1]; rfl
  have hAcreated : A.created_at = db.now + 1 := by rw [hArel.1]; rfl
  have hAacc : A.access_count = 0 := by rw [hArel.1]; rfl
  have hAconf : A.confidence = opts₁.confidence := by rw [hArel.1]; rfl
  have hidpres : ∀ (a b : Memory), joinMemRel db.nextMemId a b → b.id = a.id := by
    intro a b hab
    rw [hab.1]
  have hnd' : ((db.memories ++
      [newMemOf { db with now := db.now + 1 } t₁ opts₁ (summaryOf t₁) (keywordsOf t₁) sc]).map
      (fun m => m.id)).Nodup := by
    rw [List.map_append, List.nodup_append]
    refine ⟨hnd, List.nodup_singleton _, ?_⟩
    intro a ha hb
    rw [List.mem_map] at ha
    obtain ⟨m, hm, hma⟩ := ha
    simp only [List.map_cons, List.map_nil, List.mem_singleton] at hb
    have h1 : m.id < db.nextMemId := hids m hm
    have h2 : a = db.nextMemId := hb
    omega
  have huniq := forall₂_id_unique h4 hidpres hnd'
  have hmax : ∀ y ∈ (save stz₁ emb₁ vf₁ sim₁ db t₁ opts₁).1.memories,
      y.type = opts₂.type → y.domain = opts₂.domain →
      y = A ∨ y.created_at < A.created_at := by
    intro y hy _ _
    obtain ⟨x, hx, hxy⟩ := forall₂_mem_right h4 y hy
    rcases List.mem_append.mp hx with hx | hx
    · right
      have hcy : y.created_at = x.created_at := by rw [hxy.1]
      have hcx : x.created_at ≤ db.now := hclock x hx
      rw [hcy, hAcreated]
      omega
    · left
      rw [List.mem_singleton] at hx
      subst hx
      have hyid : y.id = db.nextMemId := by rw [hxy.1]; rfl
      exact huniq y hy A hAmem (by rw [hyid, hAid])
  obtain ⟨hr2, hnmi2, _hv2, _hc2, hF2⟩ := save_dedup_hit stz₂ emb₂ vf₂ sim₂
    (save stz₁ emb₁ vf₁ sim₁ db t₁ opts₁).1 t₂ opts₂ A hAmem
    (by rw [hAtype, htype]) (by rw [hAdom, hdom]) hmax
    (by rw [hAcontent]; exact hsim)
  obtain ⟨A', hA'mem, hA'rel⟩ := forall₂_mem_left hF2 A hAmem
  have hA'eq := hA'rel.1 rfl
  refine ⟨?_, ?_, ?_, A', hA'mem, ?_, ?_, ?_, ?_⟩
  · rw [hr2, hAid, hAcontent]
  · exact (List.Forall₂.length_eq hF2).symm
  · rw [hnmi2, hnmi]
  · rw [hA'eq]
    exact hAid
  · rw [hA'eq]
    exact hAcontent
  · rw [hA'eq]
    show A.access_count + 1 = 1
    rw [hAacc]
  · rw [hA'eq]
    show min ((9 : ℚ)/10) (A.confidence + 1/20) = min (9/10) (opts₁.confidence + 1/20)
    rw [hAconf]

theorem C4_witness :
    (19 : ℚ)/20 ≤ textSimilarity "use async for db queries" "use async for db queries" ∧
    (save .svcFail none false (fun _ _ => 0)
        (save .svcFail none false (fun _ _ => 0) ({} : DB)
          "use async for db queries" wOpts).1
        "use async for db queries" wOpts).2 =
      SaveResult.updated ({} : DB).nextMemId
        (textSimilarity "use async for db queries" "use async for db queries") ∧
    ∃ m ∈ (save .svcFail none false (fun _ _ => 0)
        (save .svcFail none false (fun _ _ => 0) ({} : DB)
          "use async for db queries" wOpts).1
        "use async for db queries" wOpts).1.memories,
      m.id = ({} : DB).nextMemId ∧ m.content = "use async for db queries" ∧
      m.access_count = 1 ∧ m.confidence = min (9/10) (wOpts.confidence + 1/20) := by
  have hs : (19 : ℚ)/20 ≤
      textSimilarity "use async for db queries" "use async for db queries" := by
    rw [textSimilarity_self]
    norm_num
  have h := C4_dedup_second_save .svcFail .svcFail none none false false
    (fun _ _ => 0) (fun _ _ => 0) ({} : DB)
    "use async for db queries" "use async for db queries" wOpts wOpts
    (by simp) (by simp) (by simp) (by rfl) (by intro _ r hcon; cases hcon)
    rfl rfl hs
    (save .svcFail none false (fun _ _ => 0) ({} : DB)
      "use async for db queries" wOpts).1 rfl
  exact ⟨hs, h.1, h.2.2.2⟩

end MemoryDb
